import Mathlib

/-!
Verification of the QR data-cleaner pipeline (`src/app.py`).

A shallow embedding of the cleaning pipeline of `app.py`.  A spreadsheet is a
list of named columns (`Table`), each holding a list of `Cell`s; rules are
translated one-for-one from the numbered rule blocks of `clean_data`
(`src/app.py` lines 11–138) and from the multi-file merge block
(lines 251–267).

Note on the source text: in `app.py` the date-normalization block
(lines 43–69) is dedented to module level, which leaves `return df, logs`
(line 138) outside any function — the file is rejected by the Python
compiler (`SyntaxError: 'return' outside function`).  The numbered rule
comments (`# 3.` … `# 11.`) and the final `return df, logs` make the
intended placement inside `clean_data` unambiguous, so the embedding below
models `clean_data` with the numbered rules 1–11 applied in sequence.

Python string primitives (`str.strip`, `str.replace`, `str.lower`,
`re.sub`) are modelled by executable character-list functions so that the
kernel can evaluate them on concrete inputs.
-/

namespace QR

/-- A cell value: missing (`NaN`/`None`), an integral numeric, or text.
This models the pandas cell values reachable in the pipeline; `str()`
conversion is `Cell.toStr`. -/
inductive Cell where
  | na : Cell
  | num : Int → Cell
  | str : String → Cell
  deriving DecidableEq, Repr

/-- The character of a decimal digit. -/
def digitChar (d : Nat) : Char :=
  match d with
  | 0 => '0' | 1 => '1' | 2 => '2' | 3 => '3' | 4 => '4'
  | 5 => '5' | 6 => '6' | 7 => '7' | 8 => '8' | _ => '9'

/-- Decimal digits of a natural number, most significant first; the fuel
argument (any bound on the digit count, e.g. `n + 1`) keeps the recursion
structural. -/
def decChars (fuel n : Nat) : List Char :=
  match fuel with
  | 0 => []
  | fuel + 1 => if n < 10 then [digitChar n] else decChars fuel (n / 10) ++ [digitChar (n % 10)]

/-- Python `str(n)` for an integer. -/
def natStr (n : Nat) : String :=
  String.mk (decChars (n + 1) n)

/-- Python `str(n)` for an integer, with sign. -/
def intStr (n : Int) : String :=
  if n < 0 then String.mk ('-' :: decChars (n.natAbs + 1) n.natAbs) else natStr n.natAbs

/-- Python `str(x)`: `str(nan) = "nan"`, numbers print in decimal, strings
are unchanged. -/
def Cell.toStr : Cell → String
  | Cell.na => "nan"
  | Cell.num n => intStr n
  | Cell.str s => s

/-- Python `str.strip()`: drop leading and trailing whitespace. -/
def pyStrip (s : String) : String :=
  String.mk (((s.toList.dropWhile Char.isWhitespace).reverse.dropWhile Char.isWhitespace).reverse)

/-- Python `str.lower()`. -/
def pyLower (s : String) : String :=
  String.mk (s.toList.map Char.toLower)

/-- Helper for `pyReplace`: replace every non-overlapping occurrence of
`p :: ps` in the subject, scanning left to right (Python `str.replace`).
The fuel argument (any bound on the subject length) keeps the recursion
structural; each step consumes at least one subject character. -/
def replAux (p : Char) (ps rep : List Char) : Nat → List Char → List Char
  | _, [] => []
  | 0, l => l
  | fuel + 1, c :: cs =>
    if (p :: ps).isPrefixOf (c :: cs) then rep ++ replAux p ps rep fuel (cs.drop ps.length)
    else c :: replAux p ps rep fuel cs

/-- Python `s.replace(pat, rep)`: all non-overlapping occurrences,
left to right.  (The `pat = ""` case never arises in the pipeline.) -/
def pyReplace (s pat rep : String) : String :=
  match pat.toList with
  | [] => s
  | p :: ps => String.mk (replAux p ps rep.toList s.toList.length s.toList)

/-- Header normalization of `clean_data` (line 15):
`str(x).strip().replace("\n", " ").strip()`. -/
def normName (s : String) : String :=
  pyStrip (pyReplace (pyStrip s) "\n" " ")

/-- Scrub-list name matching (line 133): `c.lower().replace(" ", "")`. -/
def scrubNorm (s : String) : String :=
  pyReplace (pyLower s) " " ""

/-- Model of `re.sub(r"\D", "", x)` (line 34): keep only digit characters. -/
def digitsOf (s : String) : List Char :=
  s.toList.filter Char.isDigit

/-- The function `clean_mobile` (lines 32–37): strip, drop non-digits, and drop a
leading `"91"` exactly when the digit string has length 12. -/
def clean_mobile (x : Cell) : String :=
  let d := digitsOf (pyStrip (Cell.toStr x))
  if d.length = 12 ∧ d.take 2 = ['9', '1'] then String.mk (d.drop 2) else String.mk d

/-- A calendar date as (year, month, day). -/
abbrev DateYMD := Int × Nat × Nat

/-- Convert a count of days since 1970-01-01 to a calendar date
(proleptic Gregorian); models the `pd.Timestamp` day arithmetic of
line 55. -/
def civilFromDays (z : Int) : DateYMD :=
  let zs := z + 719468
  let era := Int.fdiv zs 146097
  let doe := (zs - era * 146097).toNat
  let yoe := (doe - doe / 1460 + doe / 36524 - doe / 146096) / 365
  let y := era * 400 + (yoe : Int)
  let doy := doe - (365 * yoe + yoe / 4 - yoe / 100)
  let mp := (5 * doy + 2) / 153
  let d := doy - (153 * mp + 2) / 5 + 1
  let m := if mp < 10 then mp + 3 else mp - 9
  (if m ≤ 2 then y + 1 else y, m, d)

/-- Model of `pd.to_datetime("1899-12-30") + pd.to_timedelta(n, unit="D")`
(line 55): serial `n` counts days from the epoch 1899-12-30, which lies
25569 days before 1970-01-01. -/
def serialToYMD (n : Int) : DateYMD :=
  civilFromDays (n - 25569)

/-- Two-digit zero padding (strftime `%d`, `%m`). -/
def pad2 (n : Nat) : String :=
  if n < 10 then "0" ++ natStr n else natStr n

/-- Four-digit zero padding for the year (strftime `%Y`). -/
def padYear (y : Int) : String :=
  if y < 0 then intStr y
  else
    let s := natStr y.toNat
    String.mk (List.replicate (4 - s.toList.length) '0') ++ s

/-- Rendering `dt.strftime("%d-%m-%Y")` (lines 56, 65). -/
def renderYMD (d : DateYMD) : String :=
  pad2 d.2.2 ++ "-" ++ pad2 d.2.1 ++ "-" ++ padYear d.1

/-- The rule `format_date` (lines 47–67).  Two external-library
behaviours are abstracted as parameters.  `serialOk n` models whether
`pd.to_datetime("1899-12-30") + pd.to_timedelta(n, unit="D")` (line 55)
succeeds: `false` models the out-of-bounds exception raised for serials
outside the representable pandas Timestamp/Timedelta range, which the
`except Exception: pass` at lines 57–58 swallows, letting control fall
through to the text branch applied to `str(x)`.  (In the real library the
range covers roughly serials −81174 to 106751; every serial in this
file's concrete instances, such as 45231, lies inside it.)  `parse`
models `pd.to_datetime(str(x), dayfirst=True, errors="coerce")`
(line 62), with `none` the `NaT` (unparseable) outcome. -/
def format_date (serialOk : Int → Bool) (parse : String → Option DateYMD) (x : Cell) : Cell :=
  if x = Cell.na ∨ pyStrip (Cell.toStr x) = "" then Cell.str ""
  else
    match x with
    | Cell.num n =>
      if serialOk n then Cell.str ("'" ++ renderYMD (serialToYMD n))
      else
        match parse (Cell.toStr (Cell.num n)) with
        | some d => Cell.str ("'" ++ renderYMD d)
        | none => Cell.str (Cell.toStr (Cell.num n))
    | y =>
      match parse (Cell.toStr y) with
      | some d => Cell.str ("'" ++ renderYMD d)
      | none => Cell.str (Cell.toStr y)

/-- Aadhaar cell rule (line 76):
`"'" + x.replace(".0", "") if x.strip() != "" and x.lower() != "nan" else ""`. -/
def aadharClean (x : String) : String :=
  if pyStrip x ≠ "" ∧ pyLower x ≠ "nan" then "'" ++ pyReplace x ".0" "" else ""

/-- Python `x.lstrip("'")`. -/
def lstripApos (s : String) : String :=
  String.mk (s.toList.dropWhile (fun c => c = Char.ofNat 39))

/-- Account-number cell rule (lines 82–83): like `aadharClean` but with a
leading-apostrophe strip before the `".0"` removal. -/
def accountClean (x : String) : String :=
  if pyStrip x ≠ "" ∧ pyLower x ≠ "nan" then "'" ++ pyReplace (lstripApos x) ".0" "" else ""

/-- Character class of the address regex `[,\.\#\&\):\(]` (line 90). -/
def addrChars : List Char := [',', '.', '#', '&', ')', ':', '(']

/-- Character class of the name regex `[/\\|()&#,.;']` (line 108); the
final entry is the apostrophe. -/
def nameChars : List Char := ['/', '\\', '|', '(', ')', '&', '#', ',', '.', ';', Char.ofNat 39]

/-- Model of `.str.replace(class, " ", regex=True)`: each member of the class
becomes one space. -/
def replaceClassWithSpace (cls : List Char) (s : String) : String :=
  String.mk (s.toList.map (fun c => if c ∈ cls then ' ' else c))

/-- Address cell rule (lines 89–92): punctuation to spaces, strip, then
the whole-value replacements `"nan"/"NaN"/"None" → ""`. -/
def addrClean (x : String) : String :=
  let t := pyStrip (replaceClassWithSpace addrChars x)
  if t = "nan" ∨ t = "NaN" ∨ t = "None" then "" else t

/-- Name cell rule (lines 108–109). -/
def nameClean (x : String) : String :=
  let t := pyStrip (replaceClassWithSpace nameChars x)
  if t = "nan" ∨ t = "NaN" ∨ t = "None" then "" else t

/-- A named column of a table. -/
structure Col where
  name : String
  vals : List Cell
  deriving DecidableEq, Repr

/-- A table is its columns in order; the rows are read across columns. -/
abbrev Table := List Col

/-- Reading `df[n]` / testing `n in df.columns`: the first column named `n`. -/
def findCol (t : Table) (n : String) : Option Col :=
  t.find? (fun c => decide (c.name = n))

/-- Presence test `n in df.columns`. -/
def hasCol (t : Table) (n : String) : Bool :=
  t.any (fun c => decide (c.name = n))

/-- The header row. -/
def colNames (t : Table) : List String :=
  t.map Col.name

/-- Row count `len(df)`: the height of the table (its first column's length). -/
def numRows (t : Table) : Nat :=
  match t with
  | [] => 0
  | c :: _ => c.vals.length

/-- Assignment `df[n] = f(df[n])`: rewrite the values of every column named `n`. -/
def updateCol (n : String) (f : List Cell → List Cell) (t : Table) : Table :=
  t.map (fun c => if c.name = n then Col.mk c.name (f c.vals) else c)

/-- Apply a boolean row mask to one column's values (`df = df[mask]`). -/
def maskFilter : List Bool → List Cell → List Cell
  | true :: ms, x :: xs => x :: maskFilter ms xs
  | false :: ms, _ :: xs => maskFilter ms xs
  | _, _ => []

/-- Filtering `df = df[mask]`: apply a row mask to every column. -/
def filterRows (mask : List Bool) (t : Table) : Table :=
  t.map (fun c => Col.mk c.name (maskFilter mask c.vals))

/-- Rule 1 (line 15): normalize every column name. -/
def renameCols (t : Table) : Table :=
  t.map (fun c => Col.mk (normName c.name) c.vals)

/-- The row predicate of rule 1's filter (line 20):
`notna() & (astype(str).str.strip() != "")`. -/
def notBlankMobile (x : Cell) : Bool :=
  decide (x ≠ Cell.na ∧ pyStrip (Cell.toStr x) ≠ "")

/-- Rule "1. Remove rows where Mobile No is blank" (lines 17–22). -/
def blankFilterStep (t : Table) : Table × List String :=
  match findCol t "Mobile No" with
  | none => (t, [])
  | some c =>
    let mask := c.vals.map notBlankMobile
    let kept := maskFilter mask c.vals
    let removed := c.vals.length - kept.length
    (filterRows mask t, ["Removed " ++ natStr removed ++ " rows with blank Mobile No"])

/-- Model of the `Series.duplicated` mask for `drop_duplicates(keep="first")`: `true`
exactly at the first occurrence of each value. -/
def dedupMask (seen : List Cell) : List Cell → List Bool
  | [] => []
  | x :: xs => if x ∈ seen then false :: dedupMask seen xs else true :: dedupMask (x :: seen) xs

/-- Rule "2. Remove duplicate Mobile numbers" plus the in-block mobile
normalization (lines 24–40). -/
def dedupStep (t : Table) : Table × List String :=
  match findCol t "Mobile No" with
  | none => (t, [])
  | some c =>
    let mask := dedupMask [] c.vals
    let kept := maskFilter mask c.vals
    let removed := c.vals.length - kept.length
    let t2 := updateCol "Mobile No" (List.map (fun x => Cell.str (clean_mobile x))) (filterRows mask t)
    (t2, ["Removed " ++ natStr removed ++ " duplicate row(s) by Mobile No (kept first occurrence)",
          "Cleaned 12-digit mobile numbers by removing '91' prefix where applicable"])

/-- The three date columns of rule 3 (line 45). -/
def dateColNames : List String := ["DOB", "DOI", "Account Opening Date"]

/-- Rule "3. Dates" (lines 45–69), the loop unrolled; `updateCol` on an
absent name is the identity, matching the `if col in df.columns` guard. -/
def dateStep (serialOk : Int → Bool) (parse : String → Option DateYMD) (t : Table) : Table :=
  updateCol "Account Opening Date" (List.map (format_date serialOk parse))
    (updateCol "DOI" (List.map (format_date serialOk parse))
      (updateCol "DOB" (List.map (format_date serialOk parse)) t))

/-- Model of `astype(str).apply(f)` for a string-valued cell rule. -/
def idMap (f : String → String) : List Cell → List Cell :=
  List.map (fun x => Cell.str (f (Cell.toStr x)))

/-- Rule "4. Aadhaar No" (lines 73–77), the loop unrolled. -/
def aadharStep (t : Table) : Table :=
  updateCol "Aadhaar No" (idMap aadharClean) (updateCol "Aadhar No" (idMap aadharClean) t)

/-- Rule "5. Account No" (lines 80–84). -/
def accountStep (t : Table) : Table :=
  updateCol "Account No" (idMap accountClean) t

/-- Rule "6. Address cleanup" (lines 87–102): per-cell cleanup of both
address columns, then the row-wise copy of Address Line 1 into a blank
Address Line 2. -/
def addr2copy (t1 : Table) : Table :=
  match findCol t1 "Address Line 1", findCol t1 "Address Line 2" with
  | some c1, some _ =>
    updateCol "Address Line 2" (fun vs =>
      List.zipWith (fun a b =>
        if (b = Cell.na ∨ pyStrip (Cell.toStr b) = "") ∧ pyStrip (Cell.toStr a) ≠ "" then a else b)
        c1.vals vs) t1
  | _, _ => t1

def addressStep (t : Table) : Table :=
  addr2copy (updateCol "Address Line 2" (idMap addrClean) (updateCol "Address Line 1" (idMap addrClean) t))

/-- Rule "7. Names cleanup" (lines 105–109), the loop unrolled. -/
def nameStep (t : Table) : Table :=
  updateCol "Account Holder Name" (idMap nameClean)
    (updateCol "Entity Name" (idMap nameClean)
      (updateCol "Last Name" (idMap nameClean)
        (updateCol "Middle Name" (idMap nameClean)
          (updateCol "First Name" (idMap nameClean) t))))

/-- The entity mask of line 113:
`notna() & (.str.strip() != "")`; a numeric cell yields `NaN` under the
`.str` accessor and `NaN != ""` is elementwise true, so it passes. -/
def entityTruthy (x : Cell) : Bool :=
  match x with
  | Cell.na => false
  | Cell.num _ => true
  | Cell.str s => decide (pyStrip s ≠ "")

/-- Masked assignment `df.loc[mask, col] = ""`: blank the entries selected by the mask. -/
def maskSet : List Bool → List Cell → List Cell
  | b :: ms, x :: xs => (if b then Cell.str "" else x) :: maskSet ms xs
  | [], xs => xs
  | _ :: _, [] => []

/-- Rule "8. Entity vs Personal Names" (lines 112–116). -/
def entityStep (t : Table) : Table :=
  match findCol t "Entity Name" with
  | none => t
  | some ce =>
    updateCol "Last Name" (maskSet (ce.vals.map entityTruthy))
      (updateCol "Middle Name" (maskSet (ce.vals.map entityTruthy))
        (updateCol "First Name" (maskSet (ce.vals.map entityTruthy)) t))

/-- Rule "9. Branch Name" (lines 119–121). -/
def branchStep (t : Table) : Table × List String :=
  if hasCol t "Branch Name" then
    (updateCol "Branch Name" (List.map (fun _ => Cell.str "HO Branch")) t,
     ["Replaced all values in 'Branch Name' with 'HO Branch'"])
  else (t, [])

/-- Rule "10. Add Source File column" (lines 124–125); `if source_file:`
is Python truthiness, so an empty name does not tag.  Assigning a new
column appends it after the existing ones. -/
def sourceStep (src : Option String) (t : Table) : Table :=
  match src with
  | none => t
  | some s =>
    if s = "" then t
    else if hasCol t "Source_File" then
      updateCol "Source_File" (List.map (fun _ => Cell.str s)) t
    else t ++ [Col.mk "Source_File" (List.replicate (numRows t) (Cell.str s))]

/-- The scrub list of rule 11 (lines 128–131). -/
def clear_cols : List String :=
  ["Turnover Type", "Acceptance Type", "Ownership Type", "MCC", "Email ID", "Source_File",
   "Bank Cust ID", "State Code (GST)", "Latitude", "Longitude", "District"]

/-- Assignment `df[m] = ""` on a whole column. -/
def clearVals : List Cell → List Cell :=
  List.map (fun _ => Cell.str "")

/-- Model of `[c for c in df.columns if c.lower().replace(" ","") == col.lower().replace(" ","")]`
(line 133). -/
def scrubMatches (t : Table) (col : String) : List String :=
  (t.filter (fun c => decide (scrubNorm c.name = scrubNorm col))).map Col.name

/-- One iteration of the scrub loop (lines 132–136): clear every matched
column and log one entry per match. -/
def scrubOne (col : String) (acc : Table × List String) : Table × List String :=
  let ms := scrubMatches acc.1 col
  (ms.foldl (fun tt m => updateCol m clearVals tt) acc.1,
   acc.2 ++ ms.map (fun m => "Cleared all data from column: " ++ m))

/-- The scrub loop over a list of scrub names. -/
def scrubList : List String → Table × List String → Table × List String
  | [], acc => acc
  | col :: rest, acc => scrubList rest (scrubOne col acc)

/-- Rule "11. Clear unwanted columns" (lines 127–136). -/
def scrubStep (t : Table) : Table × List String :=
  scrubList clear_cols (t, [])

/-- The table after rules 1–10 (rename, blank filter, dedup + mobile
normalization, dates, Aadhaar, account, address, names, entity, branch,
source tagging), before the final scrub. -/
def preScrub (serialOk : Int → Bool) (parse : String → Option DateYMD) (src : Option String) (t : Table) : Table :=
  sourceStep src (branchStep (entityStep (nameStep (addressStep (accountStep (aadharStep
    (dateStep serialOk parse (dedupStep (blankFilterStep (renameCols t)).1).1))))))).1

/-- The function `clean_data` (lines 11–138): the numbered rules in order, returning
the cleaned table and the log (blank-filter, dedup, branch and scrub
entries, in that order). -/
def clean_data (serialOk : Int → Bool) (parse : String → Option DateYMD) (src : Option String) (t : Table) :
    Table × List String :=
  ((scrubStep (preScrub serialOk parse src t)).1,
   (blankFilterStep (renameCols t)).2 ++
     (dedupStep (blankFilterStep (renameCols t)).1).2 ++
     (branchStep (entityStep (nameStep (addressStep (accountStep (aadharStep
       (dateStep serialOk parse (dedupStep (blankFilterStep (renameCols t)).1).1))))))).2 ++
     (scrubStep (preScrub serialOk parse src t)).2)

/-- Model of `pd.concat` (line 260) for tables sharing one header sequence:
append the value lists column by column.  (General pandas column
alignment is not needed by the claims, which hypothesize equal headers.) -/
def concat2 (a b : Table) : Table :=
  List.zipWith (fun c1 c2 => Col.mk c1.name (c1.vals ++ c2.vals)) a b

/-- Concatenation of all cleaned tables in upload order. -/
def concatAll : List Table → Table
  | [] => []
  | t :: ts => ts.foldl concat2 t

/-- The merged second deduplication pass (lines 263–267). -/
def mergedDedup (t : Table) : Table × List String :=
  match findCol t "Mobile No" with
  | none => (t, [])
  | some c =>
    let mask := dedupMask [] c.vals
    let kept := maskFilter mask c.vals
    let removed := c.vals.length - kept.length
    (filterRows mask t,
     ["(Merged) Removed " ++ natStr removed ++ " duplicate row(s) by Mobile No (kept first occurrence)"])

/-- The multi-file branch (lines 251–267): clean each file tagged with its
name, concatenate in upload order, then deduplicate the merged table. -/
def processMultiple (serialOk : Int → Bool) (parse : String → Option DateYMD) (files : List (String × Table)) :
    Table × List String :=
  let cleaned := files.map (fun f => (f.1, clean_data serialOk parse (some f.1) f.2))
  let merged := concatAll (cleaned.map (fun c => c.2.1))
  let logs := (cleaned.map (fun c => c.2.2.map (fun l => "[" ++ c.1 ++ "] " ++ l))).flatten
  let pm := mergedDedup merged
  (pm.1, logs ++ pm.2)

/-! ## Toolkit: column lookup, masks, and the scrub characterization -/

theorem findCol_name {t : Table} {n : String} {c : Col} (h : findCol t n = some c) :
    c.name = n := by
  have := List.find?_some h
  simpa using this

theorem findCol_map (g : Col → Col) (hg : ∀ c, (g c).name = c.name) (t : Table) (n : String) :
    findCol (t.map g) n = (findCol t n).map g := by
  unfold findCol
  have hp : ((fun c => decide (c.name = n)) ∘ g) = fun c => decide (c.name = n) := by
    funext c
    simp [Function.comp, hg]
  rw [List.find?_map, hp]

theorem findCol_updateCol_ne {m n : String} (h : m ≠ n) (f : List Cell → List Cell) (t : Table) :
    findCol (updateCol n f t) m = findCol t m := by
  unfold updateCol
  rw [findCol_map _ (fun c => by by_cases hc : c.name = n <;> simp [hc])]
  cases hf : findCol t m with
  | none => rfl
  | some c =>
    have hc := findCol_name hf
    simp [hc, h]

theorem findCol_updateCol_eq (n : String) (f : List Cell → List Cell) (t : Table) :
    findCol (updateCol n f t) n = (findCol t n).map (fun c => Col.mk c.name (f c.vals)) := by
  unfold updateCol
  rw [findCol_map _ (fun c => by by_cases hc : c.name = n <;> simp [hc])]
  cases hf : findCol t n with
  | none => rfl
  | some c =>
    have hc := findCol_name hf
    simp [hc]

theorem findCol_filterRows (mask : List Bool) (t : Table) (n : String) :
    findCol (filterRows mask t) n =
      (findCol t n).map (fun c => Col.mk c.name (maskFilter mask c.vals)) := by
  unfold filterRows
  exact findCol_map (fun c => Col.mk c.name (maskFilter mask c.vals)) (fun _ => rfl) t n

theorem colNames_map (g : Col → Col) (hg : ∀ c, (g c).name = c.name) (t : Table) :
    colNames (t.map g) = colNames t := by
  unfold colNames
  rw [List.map_map]
  exact List.map_congr_left (fun c _ => hg c)

theorem colNames_updateCol (n : String) (f : List Cell → List Cell) (t : Table) :
    colNames (updateCol n f t) = colNames t :=
  colNames_map _ (fun c => by by_cases hc : c.name = n <;> simp [hc]) t

theorem colNames_filterRows (mask : List Bool) (t : Table) :
    colNames (filterRows mask t) = colNames t :=
  colNames_map (fun c => Col.mk c.name (maskFilter mask c.vals)) (fun _ => rfl) t

theorem maskFilter_sublist (mask : List Bool) (xs : List Cell) :
    List.Sublist (maskFilter mask xs) xs := by
  induction xs generalizing mask with
  | nil => cases mask <;> simp [maskFilter]
  | cons x xs ih =>
    cases mask with
    | nil => simp [maskFilter]
    | cons b ms =>
      cases b with
      | true => exact (ih ms).cons₂ x
      | false => exact (ih ms).cons x

theorem clearVals_idem (vs : List Cell) : clearVals (clearVals vs) = clearVals vs := by
  unfold clearVals
  simp

theorem mem_clearVals {vs : List Cell} {v : Cell} (h : v ∈ clearVals vs) : v = Cell.str "" := by
  unfold clearVals at h
  obtain ⟨w, _, rfl⟩ := List.mem_map.mp h
  rfl

theorem foldl_clear_eq_map (ms : List String) (t : Table) :
    ms.foldl (fun tt m => updateCol m clearVals tt) t =
      t.map (fun c => if c.name ∈ ms then Col.mk c.name (clearVals c.vals) else c) := by
  induction ms generalizing t with
  | nil => simp
  | cons m ms ih =>
    rw [List.foldl_cons, ih]
    unfold updateCol
    rw [List.map_map]
    apply List.map_congr_left
    intro c _
    by_cases h1 : c.name = m
    · by_cases h2 : c.name ∈ ms <;>
        simp [Function.comp, h1, h2, clearVals_idem]
    · by_cases h2 : c.name ∈ ms <;>
        simp [Function.comp, h1, h2]

theorem name_mem_scrubMatches {t : Table} {col : String} {c : Col} (hc : c ∈ t)
    (h : scrubNorm c.name = scrubNorm col) : c.name ∈ scrubMatches t col := by
  unfold scrubMatches
  exact List.mem_map_of_mem _ (List.mem_filter.mpr ⟨hc, by simpa using h⟩)

theorem mem_scrubMatches_norm {t : Table} {col n : String}
    (h : n ∈ scrubMatches t col) : scrubNorm n = scrubNorm col := by
  unfold scrubMatches at h
  obtain ⟨c, hc, rfl⟩ := List.mem_map.mp h
  simpa using (List.mem_filter.mp hc).2

theorem scrubOne_table (col : String) (t : Table) (ls : List String) :
    (scrubOne col (t, ls)).1 =
      t.map (fun c =>
        if scrubNorm c.name = scrubNorm col then Col.mk c.name (clearVals c.vals) else c) := by
  show (scrubMatches t col).foldl (fun tt m => updateCol m clearVals tt) t = _
  rw [foldl_clear_eq_map]
  apply List.map_congr_left
  intro c hc
  by_cases h : scrubNorm c.name = scrubNorm col
  · simp [h, name_mem_scrubMatches hc h]
  · have hnm : c.name ∉ scrubMatches t col := fun hmem => h (mem_scrubMatches_norm hmem)
    simp [h, hnm]

theorem scrubMatches_eq_names (t : Table) (col : String) :
    scrubMatches t col =
      (colNames t).filter (fun nm => decide (scrubNorm nm = scrubNorm col)) := by
  unfold scrubMatches colNames
  induction t with
  | nil => rfl
  | cons c t ih =>
    by_cases h : scrubNorm c.name = scrubNorm col <;>
      simp [List.filter_cons, h, ih]

/-- Does a column name match any entry of a scrub list? -/
def scrubHit (n : String) (cols : List String) : Bool :=
  cols.any (fun col => decide (scrubNorm n = scrubNorm col))

theorem scrubList_table (cols : List String) (t : Table) (ls : List String) :
    (scrubList cols (t, ls)).1 =
      t.map (fun c => if scrubHit c.name cols then Col.mk c.name (clearVals c.vals) else c) := by
  induction cols generalizing t ls with
  | nil => simp [scrubList, scrubHit]
  | cons col cols ih =>
    show (scrubList cols (scrubOne col (t, ls))).1 = _
    rw [show scrubOne col (t, ls) = ((scrubOne col (t, ls)).1, (scrubOne col (t, ls)).2) from rfl,
      ih, scrubOne_table]
    rw [List.map_map]
    apply List.map_congr_left
    intro c _
    by_cases h1 : scrubNorm c.name = scrubNorm col
    · by_cases h2 : scrubHit c.name cols <;>
        simp [Function.comp, scrubHit, h1, h2, clearVals_idem]
    · by_cases h2 : scrubHit c.name cols <;>
        simp [Function.comp, scrubHit, h1, h2]

theorem colNames_scrubOne (col : String) (t : Table) (ls : List String) :
    colNames (scrubOne col (t, ls)).1 = colNames t := by
  rw [scrubOne_table]
  exact colNames_map _ (fun c => by by_cases h : scrubNorm c.name = scrubNorm col <;> simp [h]) t

theorem scrubList_logs (cols : List String) (t : Table) (ls : List String) :
    (scrubList cols (t, ls)).2 = ls ++ (cols.map (fun col =>
      ((colNames t).filter (fun nm => decide (scrubNorm nm = scrubNorm col))).map
        (fun nm => "Cleared all data from column: " ++ nm))).flatten := by
  induction cols generalizing t ls with
  | nil => simp [scrubList]
  | cons col cols ih =>
    show (scrubList cols (scrubOne col (t, ls))).2 = _
    rw [show scrubOne col (t, ls) = ((scrubOne col (t, ls)).1, (scrubOne col (t, ls)).2) from rfl,
      ih, colNames_scrubOne]
    show (scrubOne col (t, ls)).2 ++ _ = _
    rw [show (scrubOne col (t, ls)).2 = ls ++ (scrubMatches t col).map
        (fun m => "Cleared all data from column: " ++ m) from rfl]
    rw [scrubMatches_eq_names]
    simp [List.append_assoc]

theorem colNames_scrubStep (t : Table) : colNames (scrubStep t).1 = colNames t := by
  unfold scrubStep
  rw [scrubList_table]
  exact colNames_map _ (fun c => by by_cases h : scrubHit c.name clear_cols <;> simp [h]) t

theorem findCol_scrubStep_ne {m : String} (h : scrubHit m clear_cols = false) (t : Table) :
    findCol (scrubStep t).1 m = findCol t m := by
  unfold scrubStep
  rw [scrubList_table]
  rw [findCol_map _ (fun c => by by_cases hc : scrubHit c.name clear_cols <;> simp [hc])]
  cases hf : findCol t m with
  | none => rfl
  | some c =>
    have hc := findCol_name hf
    simp [hc, h]

/-! ## Toolkit: preservation of untouched columns by each rule -/

theorem findCol_dateStep_ne {m : String} (h1 : m ≠ "DOB") (h2 : m ≠ "DOI")
    (h3 : m ≠ "Account Opening Date") (serialOk : Int → Bool) (parse : String → Option DateYMD) (t : Table) :
    findCol (dateStep serialOk parse t) m = findCol t m := by
  unfold dateStep
  rw [findCol_updateCol_ne h3, findCol_updateCol_ne h2, findCol_updateCol_ne h1]

theorem findCol_aadharStep_ne {m : String} (h1 : m ≠ "Aadhar No") (h2 : m ≠ "Aadhaar No")
    (t : Table) : findCol (aadharStep t) m = findCol t m := by
  unfold aadharStep
  rw [findCol_updateCol_ne h2, findCol_updateCol_ne h1]

theorem findCol_accountStep_ne {m : String} (h : m ≠ "Account No") (t : Table) :
    findCol (accountStep t) m = findCol t m := by
  unfold accountStep
  rw [findCol_updateCol_ne h]

theorem findCol_addr2copy_ne {m : String} (h2 : m ≠ "Address Line 2") (t1 : Table) :
    findCol (addr2copy t1) m = findCol t1 m := by
  unfold addr2copy
  split
  · rw [findCol_updateCol_ne h2]
  · rfl

theorem findCol_addressStep_ne {m : String} (h1 : m ≠ "Address Line 1")
    (h2 : m ≠ "Address Line 2") (t : Table) :
    findCol (addressStep t) m = findCol t m := by
  unfold addressStep
  rw [findCol_addr2copy_ne h2, findCol_updateCol_ne h2, findCol_updateCol_ne h1]

theorem findCol_nameStep_ne {m : String} (h1 : m ≠ "First Name") (h2 : m ≠ "Middle Name")
    (h3 : m ≠ "Last Name") (h4 : m ≠ "Entity Name") (h5 : m ≠ "Account Holder Name")
    (t : Table) : findCol (nameStep t) m = findCol t m := by
  unfold nameStep
  rw [findCol_updateCol_ne h5, findCol_updateCol_ne h4, findCol_updateCol_ne h3,
    findCol_updateCol_ne h2, findCol_updateCol_ne h1]

theorem findCol_entityStep_ne {m : String} (h1 : m ≠ "First Name") (h2 : m ≠ "Middle Name")
    (h3 : m ≠ "Last Name") (t : Table) :
    findCol (entityStep t) m = findCol t m := by
  unfold entityStep
  split
  · rfl
  · rw [findCol_updateCol_ne h3, findCol_updateCol_ne h2, findCol_updateCol_ne h1]

theorem findCol_branchStep_ne {m : String} (h : m ≠ "Branch Name") (t : Table) :
    findCol (branchStep t).1 m = findCol t m := by
  unfold branchStep
  by_cases hb : hasCol t "Branch Name" <;> simp [hb, findCol_updateCol_ne h]

theorem findCol_append_single {m : String} {c : Col} (h : c.name ≠ m) (t : Table) :
    findCol (t ++ [c]) m = findCol t m := by
  unfold findCol
  induction t with
  | nil => simp [List.find?, h]
  | cons d t ih =>
    by_cases hd : d.name = m <;> simp [List.find?_cons, hd, ih]

theorem findCol_sourceStep_ne {m : String} (h : m ≠ "Source_File")
    (src : Option String) (t : Table) :
    findCol (sourceStep src t) m = findCol t m := by
  unfold sourceStep
  cases src with
  | none => rfl
  | some s =>
    by_cases hs : s = ""
    · simp [hs]
    · by_cases hc : hasCol t "Source_File"
      · simp [hs, hc, findCol_updateCol_ne h]
      · simp only [hs, hc, if_false, if_true, Bool.false_eq_true]
        exact findCol_append_single (by simpa using h.symm) t

/-- Preservation through rules 7–11 (names, entity, branch, source, scrub)
for a column none of them touch. -/
theorem findCol_tailSteps {m : String}
    (hn1 : m ≠ "First Name") (hn2 : m ≠ "Middle Name") (hn3 : m ≠ "Last Name")
    (hn4 : m ≠ "Entity Name") (hn5 : m ≠ "Account Holder Name")
    (hb : m ≠ "Branch Name") (hsf : m ≠ "Source_File")
    (hscrub : scrubHit m clear_cols = false) (src : Option String) (t : Table) :
    findCol (scrubStep (sourceStep src (branchStep (entityStep (nameStep t))).1)).1 m =
      findCol t m := by
  rw [findCol_scrubStep_ne hscrub, findCol_sourceStep_ne hsf, findCol_branchStep_ne hb,
    findCol_entityStep_ne hn1 hn2 hn3, findCol_nameStep_ne hn1 hn2 hn3 hn4 hn5]

/-! ## Toolkit: the first two (row-dropping) rules -/

theorem findCol_rowSteps {X : String} (hX : X ≠ "Mobile No") {t : Table} {c : Col}
    (hc : findCol t X = some c) :
    ∃ kept, List.Sublist kept c.vals ∧
      findCol (dedupStep (blankFilterStep t).1).1 X = some (Col.mk X kept) := by
  have hname : c.name = X := findCol_name hc
  cases hm : findCol t "Mobile No" with
  | none =>
    have hb : blankFilterStep t = (t, []) := by unfold blankFilterStep; rw [hm]
    have hd : dedupStep t = (t, []) := by unfold dedupStep; rw [hm]
    refine ⟨c.vals, List.Sublist.refl _, ?_⟩
    rw [hb, hd]
    simpa [← hname] using hc
  | some cm =>
    have hb : (blankFilterStep t).1 = filterRows (cm.vals.map notBlankMobile) t := by
      unfold blankFilterStep
      rw [hm]
    have h1 : findCol (blankFilterStep t).1 X =
        some (Col.mk X (maskFilter (cm.vals.map notBlankMobile) c.vals)) := by
      rw [hb, findCol_filterRows, hc]
      simp [hname]
    have hmob1 : findCol (blankFilterStep t).1 "Mobile No" =
        some (Col.mk "Mobile No" (maskFilter (cm.vals.map notBlankMobile) cm.vals)) := by
      rw [hb, findCol_filterRows, hm]
      simp [findCol_name hm]
    set vals1 := maskFilter (cm.vals.map notBlankMobile) cm.vals with hv1
    have hd : (dedupStep (blankFilterStep t).1).1 =
        updateCol "Mobile No" (List.map (fun x => Cell.str (clean_mobile x)))
          (filterRows (dedupMask [] vals1) (blankFilterStep t).1) := by
      unfold dedupStep
      rw [hmob1]
    refine ⟨maskFilter (dedupMask [] vals1) (maskFilter (cm.vals.map notBlankMobile) c.vals),
      (maskFilter_sublist _ _).trans (maskFilter_sublist _ _), ?_⟩
    rw [hd, findCol_updateCol_ne hX, findCol_filterRows, h1]
    rfl

theorem findCol_rowSteps_mobile {t : Table} {c : Col}
    (hc : findCol t "Mobile No" = some c) :
    ∃ kept, List.Sublist kept c.vals ∧
      findCol (dedupStep (blankFilterStep t).1).1 "Mobile No" =
        some (Col.mk "Mobile No" (kept.map (fun x => Cell.str (clean_mobile x)))) := by
  have hname : c.name = "Mobile No" := findCol_name hc
  have hb : (blankFilterStep t).1 = filterRows (c.vals.map notBlankMobile) t := by
    unfold blankFilterStep
    rw [hc]
  have hmob1 : findCol (blankFilterStep t).1 "Mobile No" =
      some (Col.mk "Mobile No" (maskFilter (c.vals.map notBlankMobile) c.vals)) := by
    rw [hb, findCol_filterRows, hc]
    simp [hname]
  set vals1 := maskFilter (c.vals.map notBlankMobile) c.vals with hv1
  have hd : (dedupStep (blankFilterStep t).1).1 =
      updateCol "Mobile No" (List.map (fun x => Cell.str (clean_mobile x)))
        (filterRows (dedupMask [] vals1) (blankFilterStep t).1) := by
    unfold dedupStep
    rw [hmob1]
  refine ⟨maskFilter (dedupMask [] vals1) vals1,
    (maskFilter_sublist _ _).trans (maskFilter_sublist _ _), ?_⟩
  rw [hd, findCol_updateCol_eq, findCol_filterRows, hmob1]
  rfl

/-! ## Toolkit: first-occurrence deduplication -/

theorem dedupMask_length (seen xs : List Cell) : (dedupMask seen xs).length = xs.length := by
  induction xs generalizing seen with
  | nil => rfl
  | cons x xs ih =>
    unfold dedupMask
    by_cases h : x ∈ seen <;> simp [h, ih]

theorem dedupMask_getElem (seen : List Cell) :
    ∀ (xs : List Cell) (i : Nat) (h : i < xs.length),
      (dedupMask seen xs)[i]? =
        some (decide (xs.get ⟨i, h⟩ ∉ seen ∧ xs.get ⟨i, h⟩ ∉ xs.take i)) := by
  intro xs
  induction xs generalizing seen with
  | nil => intro i h; exact absurd h (by simp)
  | cons x xs ih =>
    intro i h
    cases i with
    | zero =>
      by_cases hx : x ∈ seen <;> simp [dedupMask, hx]
    | succ i =>
      have hi : i < xs.length := by simpa using h
      by_cases hx : x ∈ seen
      · rw [show dedupMask seen (x :: xs) = false :: dedupMask seen xs from by
          simp [dedupMask, hx]]
        rw [List.getElem?_cons_succ, ih seen i hi]
        congr 1
        rw [decide_eq_decide]
        have hgx : (x :: xs).get ⟨i + 1, h⟩ = xs.get ⟨i, hi⟩ := rfl
        rw [hgx]
        simp only [List.take_succ_cons, List.mem_cons]
        constructor
        · rintro ⟨hs, ht⟩
          exact ⟨hs, fun hc => hc.elim (fun he => hs (he ▸ hx)) ht⟩
        · rintro ⟨hs, ht⟩
          exact ⟨hs, fun hc => ht (Or.inr hc)⟩
      · rw [show dedupMask seen (x :: xs) = true :: dedupMask (x :: seen) xs from by
          simp [dedupMask, hx]]
        rw [List.getElem?_cons_succ, ih (x :: seen) i hi]
        congr 1
        rw [decide_eq_decide]
        have hgx : (x :: xs).get ⟨i + 1, h⟩ = xs.get ⟨i, hi⟩ := rfl
        rw [hgx]
        simp only [List.take_succ_cons, List.mem_cons]
        constructor
        · rintro ⟨hs, ht⟩
          refine ⟨fun hc => hs (Or.inr hc), fun hc => ?_⟩
          rcases hc with he | hc
          · exact hs (Or.inl he)
          · exact ht hc
        · rintro ⟨hs, ht⟩
          exact ⟨fun hc => hc.elim (fun he => ht (Or.inl he)) hs, fun hc => ht (Or.inr hc)⟩

theorem count_maskFilter_dedup (v : Cell) :
    ∀ (xs seen : List Cell),
      (maskFilter (dedupMask seen xs) xs).count v =
        if v ∈ seen then 0 else if v ∈ xs then 1 else 0 := by
  intro xs
  induction xs with
  | nil =>
    intro seen
    simp [dedupMask, maskFilter]
  | cons x xs ih =>
    intro seen
    by_cases hx : x ∈ seen
    · rw [show dedupMask seen (x :: xs) = false :: dedupMask seen xs from by
        simp [dedupMask, hx]]
      rw [show maskFilter (false :: dedupMask seen xs) (x :: xs) =
        maskFilter (dedupMask seen xs) xs from rfl]
      rw [ih seen]
      by_cases hv : v ∈ seen
      · simp [hv]
      · have hvx : v ≠ x := fun he => hv (he ▸ hx)
        simp [hv, List.mem_cons, hvx]
    · rw [show dedupMask seen (x :: xs) = true :: dedupMask (x :: seen) xs from by
        simp [dedupMask, hx]]
      rw [show maskFilter (true :: dedupMask (x :: seen) xs) (x :: xs) =
        x :: maskFilter (dedupMask (x :: seen) xs) xs from rfl]
      rw [List.count_cons, ih (x :: seen)]
      by_cases hv : v = x
      · subst hv
        simp [hx, List.mem_cons]
      · by_cases hs : v ∈ seen
        · simp [hs, List.mem_cons, hv]
          exact fun he => hv he.symm
        · by_cases hm : v ∈ xs <;> simp [hs, hm, List.mem_cons, hv] <;>
            exact fun he => hv he.symm

theorem mergedDedup_mobile {t : Table} {c : Col} (hc : findCol t "Mobile No" = some c) :
    findCol (mergedDedup t).1 "Mobile No" =
      some (Col.mk "Mobile No" (maskFilter (dedupMask [] c.vals) c.vals)) := by
  unfold mergedDedup
  rw [hc]
  show findCol (filterRows (dedupMask [] c.vals) t) "Mobile No" = _
  rw [findCol_filterRows, hc]
  simp [findCol_name hc]

/-! ## Toolkit: string facts for the numeric rendering and digit filtering -/

theorem dropWhile_eq_self_of_all {p : Char → Bool} :
    ∀ {l : List Char}, (∀ c ∈ l, p c = false) → l.dropWhile p = l
  | [], _ => rfl
  | c :: cs, h => by simp [List.dropWhile_cons, h c (List.mem_cons_self c cs)]

theorem pyStrip_of_no_ws {l : List Char} (h : ∀ c ∈ l, c.isWhitespace = false) :
    pyStrip (String.mk l) = String.mk l := by
  unfold pyStrip
  have h1 : l.dropWhile Char.isWhitespace = l := dropWhile_eq_self_of_all h
  have h2 : l.reverse.dropWhile Char.isWhitespace = l.reverse :=
    dropWhile_eq_self_of_all (fun c hc => h c (List.mem_reverse.mp hc))
  show String.mk (((String.toList (String.mk l)).dropWhile Char.isWhitespace).reverse.dropWhile
      Char.isWhitespace).reverse = String.mk l
  rw [show String.toList (String.mk l) = l from rfl, h1, h2, List.reverse_reverse]

theorem digitChar_not_ws (d : Nat) : (digitChar d).isWhitespace = false := by
  unfold digitChar
  split <;> decide

theorem decChars_no_ws (fuel : Nat) :
    ∀ (n : Nat), ∀ c ∈ decChars fuel n, c.isWhitespace = false := by
  induction fuel with
  | zero => intro n c hc; exact absurd hc (by simp [decChars])
  | succ fuel ih =>
    intro n c hc
    unfold decChars at hc
    by_cases h : n < 10
    · rw [if_pos h] at hc
      rcases List.mem_singleton.mp hc with rfl
      exact digitChar_not_ws n
    · rw [if_neg h] at hc
      rcases List.mem_append.mp hc with h1 | h1
      · exact ih _ c h1
      · rcases List.mem_singleton.mp h1 with rfl
        exact digitChar_not_ws _

theorem decChars_ne_nil (fuel n : Nat) (h : 0 < fuel) : decChars fuel n ≠ [] := by
  cases fuel with
  | zero => exact absurd h (by simp)
  | succ fuel =>
    unfold decChars
    by_cases hn : n < 10 <;> simp [hn]

theorem mk_ne_empty {l : List Char} (h : l ≠ []) : String.mk l ≠ "" := by
  intro he
  exact h (congrArg String.data he)

theorem pyStrip_intStr (n : Int) : pyStrip (intStr n) = intStr n ∧ intStr n ≠ "" := by
  unfold intStr natStr
  by_cases h : n < 0
  · rw [if_pos h]
    constructor
    · refine pyStrip_of_no_ws ?_
      intro c hc
      rcases List.mem_cons.mp hc with rfl | hc
      · decide
      · exact decChars_no_ws _ _ c hc
    · exact mk_ne_empty (by simp)
  · rw [if_neg h]
    exact ⟨pyStrip_of_no_ws (decChars_no_ws _ _), mk_ne_empty (decChars_ne_nil _ _ (by omega))⟩

theorem format_date_num_guard (n : Int) :
    ¬(Cell.num n = Cell.na ∨ pyStrip (Cell.toStr (Cell.num n)) = "") := by
  rintro (hna | hbl)
  · exact Cell.noConfusion hna
  · rw [show Cell.toStr (Cell.num n) = intStr n from rfl, (pyStrip_intStr n).1] at hbl
    exact (pyStrip_intStr n).2 hbl

theorem format_date_num {serialOk : Int → Bool} (parse : String → Option DateYMD) (n : Int)
    (h : serialOk n = true) :
    format_date serialOk parse (Cell.num n) = Cell.str ("'" ++ renderYMD (serialToYMD n)) := by
  unfold format_date
  rw [if_neg (format_date_num_guard n)]
  show (if serialOk n = true then Cell.str ("'" ++ renderYMD (serialToYMD n))
    else match parse (Cell.toStr (Cell.num n)) with
      | some d => Cell.str ("'" ++ renderYMD d)
      | none => Cell.str (Cell.toStr (Cell.num n))) = _
  rw [if_pos h]

theorem format_date_num_fallback {serialOk : Int → Bool} (parse : String → Option DateYMD)
    (n : Int) (h : serialOk n = false) :
    format_date serialOk parse (Cell.num n) =
      (match parse (intStr n) with
       | some d => Cell.str ("'" ++ renderYMD d)
       | none => Cell.str (intStr n)) := by
  unfold format_date
  rw [if_neg (format_date_num_guard n)]
  show (if serialOk n = true then Cell.str ("'" ++ renderYMD (serialToYMD n))
    else match parse (Cell.toStr (Cell.num n)) with
      | some d => Cell.str ("'" ++ renderYMD d)
      | none => Cell.str (Cell.toStr (Cell.num n))) = _
  rw [if_neg (by rw [h]; exact Bool.false_ne_true)]
  rfl

theorem filter_dropWhile_ws_digit (l : List Char) :
    (l.dropWhile Char.isWhitespace).filter Char.isDigit = l.filter Char.isDigit := by
  induction l with
  | nil => rfl
  | cons c cs ih =>
    by_cases h : c.isWhitespace
    · have hd : c.isDigit = false := by
        simp only [Char.isWhitespace, Bool.or_eq_true, decide_eq_true_eq] at h
        rcases h with ((h | h) | h) | h <;> subst h <;> decide
      rw [List.dropWhile_cons, if_pos h, ih, List.filter_cons, if_neg (by simp [hd])]
    · rw [List.dropWhile_cons, if_neg h]

theorem digitsOf_pyStrip (s : String) : digitsOf (pyStrip s) = s.toList.filter Char.isDigit := by
  unfold digitsOf pyStrip
  show ((((s.toList.dropWhile Char.isWhitespace).reverse.dropWhile
      Char.isWhitespace).reverse)).filter Char.isDigit = _
  rw [List.filter_reverse, filter_dropWhile_ws_digit, List.filter_reverse,
    List.reverse_reverse, filter_dropWhile_ws_digit]

/-! ## Toolkit: header (column-name) preservation through the pipeline -/

theorem hasCol_eq_isSome (t : Table) (n : String) : hasCol t n = (findCol t n).isSome := by
  unfold hasCol findCol
  induction t with
  | nil => rfl
  | cons c t ih =>
    by_cases h : c.name = n <;> simp [List.find?_cons, List.any_cons, h, ih]

theorem hasCol_iff_mem (t : Table) (n : String) : hasCol t n = true ↔ n ∈ colNames t := by
  unfold hasCol colNames
  rw [List.any_eq_true]
  constructor
  · rintro ⟨c, hc, hdec⟩
    exact (by simpa using hdec : c.name = n) ▸ List.mem_map_of_mem _ hc
  · intro h
    obtain ⟨c, hc, rfl⟩ := List.mem_map.mp h
    exact ⟨c, hc, by simp⟩

theorem colNames_blankFilterStep (t : Table) : colNames (blankFilterStep t).1 = colNames t := by
  unfold blankFilterStep
  cases findCol t "Mobile No" with
  | none => rfl
  | some c => exact colNames_filterRows _ _

theorem colNames_dedupStep (t : Table) : colNames (dedupStep t).1 = colNames t := by
  unfold dedupStep
  cases findCol t "Mobile No" with
  | none => rfl
  | some c =>
    show colNames (updateCol _ _ (filterRows _ t)) = _
    rw [colNames_updateCol, colNames_filterRows]

theorem colNames_dateStep (serialOk : Int → Bool) (parse : String → Option DateYMD) (t : Table) :
    colNames (dateStep serialOk parse t) = colNames t := by
  unfold dateStep
  rw [colNames_updateCol, colNames_updateCol, colNames_updateCol]

theorem colNames_aadharStep (t : Table) : colNames (aadharStep t) = colNames t := by
  unfold aadharStep
  rw [colNames_updateCol, colNames_updateCol]

theorem colNames_accountStep (t : Table) : colNames (accountStep t) = colNames t := by
  unfold accountStep
  rw [colNames_updateCol]

theorem colNames_addressStep (t : Table) : colNames (addressStep t) = colNames t := by
  unfold addressStep addr2copy
  split
  · rw [colNames_updateCol, colNames_updateCol, colNames_updateCol]
  · rw [colNames_updateCol, colNames_updateCol]

theorem colNames_nameStep (t : Table) : colNames (nameStep t) = colNames t := by
  unfold nameStep
  rw [colNames_updateCol, colNames_updateCol, colNames_updateCol, colNames_updateCol,
    colNames_updateCol]

theorem colNames_entityStep (t : Table) : colNames (entityStep t) = colNames t := by
  unfold entityStep
  split
  · rfl
  · rw [colNames_updateCol, colNames_updateCol, colNames_updateCol]

theorem colNames_branchStep (t : Table) : colNames (branchStep t).1 = colNames t := by
  unfold branchStep
  by_cases h : hasCol t "Branch Name" <;> simp [h, colNames_updateCol]

/-- The effect of rule 10 on the header alone. -/
def postTagNames (src : Option String) (names : List String) : List String :=
  match src with
  | none => names
  | some s =>
    if s = "" then names
    else if "Source_File" ∈ names then names else names ++ ["Source_File"]

theorem colNames_sourceStep (src : Option String) (t : Table) :
    colNames (sourceStep src t) = postTagNames src (colNames t) := by
  cases src with
  | none => rfl
  | some s =>
    simp only [sourceStep, postTagNames]
    by_cases hs : s = ""
    · simp [hs]
    · by_cases hc : hasCol t "Source_File"
      · rw [if_neg hs, if_neg hs, if_pos hc, if_pos ((hasCol_iff_mem t _).mp hc)]
        exact colNames_updateCol _ _ t
      · rw [if_neg hs, if_neg hs, if_neg (by simpa using hc),
          if_neg (fun hmem => hc ((hasCol_iff_mem t _).mpr hmem))]
        unfold colNames
        simp

/-- Unfolding of `(processMultiple serialOk parse files).1` to the merge of the cleaned
tables. -/
theorem processMultiple_fst (serialOk : Int → Bool) (parse : String → Option DateYMD)
    (files : List (String × Table)) :
    (processMultiple serialOk parse files).1 =
      (mergedDedup (concatAll
        (files.map (fun f => (clean_data serialOk parse (some f.1) f.2).1)))).1 := by
  show (mergedDedup (concatAll
    ((files.map (fun f => (f.1, clean_data serialOk parse (some f.1) f.2))).map (fun c => c.2.1)))).1 = _
  rw [List.map_map]
  rfl

/-- A parser instance that treats every text date as unparseable; used to
instantiate concrete runs whose tables carry no parseable text dates. -/
def parse0 : String → Option DateYMD := fun _ => none

/-- A serial-range instance that treats every serial as convertible; used
to instantiate concrete runs, all of whose serials (such as 45231) lie
inside the real pandas range, where the library also succeeds. -/
def serial0 : Int → Bool := fun _ => true

/-! ## Source-file tagging vs. scrubbing (claim C1) -/

/-- Every column whose name scrub-matches `"Source_File"` holds only
empty-string cells. -/
def SFBlank (t : Table) : Prop :=
  ∀ c ∈ t, scrubNorm c.name = scrubNorm "Source_File" → ∀ v ∈ c.vals, v = Cell.str ""

theorem scrubStep_SFBlank (t : Table) : SFBlank (scrubStep t).1 := by
  intro c hc hnorm v hv
  unfold scrubStep at hc
  rw [scrubList_table] at hc
  obtain ⟨c0, hc0, rfl⟩ := List.mem_map.mp hc
  by_cases hhit : scrubHit c0.name clear_cols
  · rw [if_pos hhit] at hv
    exact mem_clearVals hv
  · rw [if_neg hhit] at hnorm
    have : scrubHit c0.name clear_cols = true := by
      unfold scrubHit
      rw [List.any_eq_true]
      exact ⟨"Source_File", by decide, by simpa using hnorm⟩
    exact absurd this (by simpa using hhit)

/-- The cleaned table is the scrub step applied to the table produced by
rules 1–10. -/
theorem clean_data_fst (serialOk : Int → Bool) (parse : String → Option DateYMD) (src : Option String) (t : Table) :
    (clean_data serialOk parse src t).1 = (scrubStep (preScrub serialOk parse src t)).1 := by
  simp only [clean_data]

/-- The log of `clean_data` is the blank-filter, dedup, branch and scrub
entries in order. -/
theorem clean_data_snd (serialOk : Int → Bool) (parse : String → Option DateYMD) (src : Option String) (t : Table) :
    (clean_data serialOk parse src t).2 =
      (blankFilterStep (renameCols t)).2 ++
        (dedupStep (blankFilterStep (renameCols t)).1).2 ++
        (branchStep (entityStep (nameStep (addressStep (accountStep (aadharStep
          (dateStep serialOk parse (dedupStep (blankFilterStep (renameCols t)).1).1))))))).2 ++
        (scrubStep (preScrub serialOk parse src t)).2 := by
  simp only [clean_data]

/-- Unfolding of `preScrub` to the step chain. -/
theorem preScrub_eq (serialOk : Int → Bool) (parse : String → Option DateYMD) (src : Option String) (t : Table) :
    preScrub serialOk parse src t =
      sourceStep src (branchStep (entityStep (nameStep (addressStep (accountStep (aadharStep
        (dateStep serialOk parse (dedupStep (blankFilterStep (renameCols t)).1).1))))))).1 := by
  simp only [preScrub]

theorem clean_data_SFBlank (serialOk : Int → Bool) (parse : String → Option DateYMD) (src : Option String)
    (t : Table) : SFBlank (clean_data serialOk parse src t).1 := by
  rw [clean_data_fst]
  exact scrubStep_SFBlank _

theorem concat2_props : ∀ (a b : Table), colNames a = colNames b →
    colNames (concat2 a b) = colNames a ∧
    (SFBlank a → SFBlank b → SFBlank (concat2 a b)) := by
  intro a
  induction a with
  | nil =>
    intro b h
    refine ⟨rfl, fun _ _ => ?_⟩
    intro c hc
    exact absurd hc (by simp [concat2])
  | cons ca as ih =>
    intro b h
    cases b with
    | nil => exact absurd h (by simp [colNames])
    | cons cb bs =>
      obtain ⟨hname, htail⟩ : ca.name = cb.name ∧ colNames as = colNames bs := by
        simpa [colNames] using h
      obtain ⟨ihn, ihb⟩ := ih bs htail
      constructor
      · show colNames (Col.mk ca.name (ca.vals ++ cb.vals) :: concat2 as bs) =
          colNames (ca :: as)
        unfold colNames
        simp only [List.map_cons]
        rw [show (concat2 as bs).map Col.name = as.map Col.name from ihn]
      · intro hA hB
        intro c hc hn v hv
        rcases List.mem_cons.mp hc with rfl | hc
        · rcases List.mem_append.mp hv with hv | hv
          · exact hA ca (List.mem_cons_self _ _) hn v hv
          · exact hB cb (List.mem_cons_self _ _) (by simpa [← hname] using hn) v hv
        · exact ihb (fun c hc => hA c (List.mem_cons_of_mem _ hc))
            (fun c hc => hB c (List.mem_cons_of_mem _ hc)) c hc hn v hv

theorem concatAll_SFBlank (ts : List Table) (H : List String)
    (hall : ∀ t ∈ ts, SFBlank t ∧ colNames t = H) : SFBlank (concatAll ts) := by
  cases ts with
  | nil =>
    intro c hc
    exact absurd hc (by simp [concatAll])
  | cons t ts =>
    have h0 := hall t (List.mem_cons_self _ _)
    have haux : ∀ (ts2 : List Table) (acc : Table), SFBlank acc → colNames acc = H →
        (∀ u ∈ ts2, SFBlank u ∧ colNames u = H) → SFBlank (ts2.foldl concat2 acc) := by
      intro ts2
      induction ts2 with
      | nil => intro acc h1 _ _; exact h1
      | cons u us ihu =>
        intro acc h1 h2 h3
        have hu := h3 u (List.mem_cons_self _ _)
        obtain ⟨hn, hsf⟩ := concat2_props acc u (by rw [h2, hu.2])
        exact ihu (concat2 acc u) (hsf h1 hu.1) (by rw [hn, h2])
          (fun w hw => h3 w (List.mem_cons_of_mem _ hw))
    exact haux ts t h0.1 h0.2 (fun u hu => hall u (List.mem_cons_of_mem _ hu))

theorem mergedDedup_SFBlank {t : Table} (h : SFBlank t) : SFBlank (mergedDedup t).1 := by
  unfold mergedDedup
  cases hm : findCol t "Mobile No" with
  | none => exact h
  | some c =>
    intro d hd hn v hv
    obtain ⟨d0, hd0, rfl⟩ := List.mem_map.mp hd
    exact h d0 hd0 hn v ((maskFilter_sublist _ _).subset hv)

/-- C1, counterexample.  The claim says every merged row carries its
originating filename in "Source_File"; on this two-file input the merged
"Source_File" column holds empty strings, not the filenames. -/
theorem C1_counterexample :
    findCol (processMultiple serial0 parse0
        [("a.xlsx", [Col.mk "Mobile No" [Cell.str "1111111111"]]),
         ("b.xlsx", [Col.mk "Mobile No" [Cell.str "2222222222"]])]).1 "Source_File"
      = some (Col.mk "Source_File" [Cell.str "", Cell.str ""]) ∧
    Cell.str "" ≠ Cell.str "a.xlsx" := by
  constructor
  · decide
  · decide

/-- C1, amended: after the full pipeline the "Source_File" tag written by
rule 10 is erased again by rule 12 (whose scrub list contains
"Source_File"), so in multi-file mode every cell of every column matching
"Source_File" in the merged output is the empty string — not the
originating filename. -/
theorem C1_merged_source_blank (serialOk : Int → Bool) (parse : String → Option DateYMD)
    (files : List (String × Table)) (H : List String)
    (hH : ∀ f ∈ files, colNames (clean_data serialOk parse (some f.1) f.2).1 = H) :
    ∀ c ∈ (processMultiple serialOk parse files).1,
      scrubNorm c.name = scrubNorm "Source_File" → ∀ v ∈ c.vals, v = Cell.str "" := by
  rw [processMultiple_fst]
  apply mergedDedup_SFBlank
  apply concatAll_SFBlank _ H
  intro u hu
  obtain ⟨f, hf, rfl⟩ := List.mem_map.mp hu
  exact ⟨clean_data_SFBlank _ _ _ _, hH f hf⟩

/-- C1, witness for `C1_merged_source_blank` at a concrete two-file
input. -/
theorem C1_witness :
    (∀ f ∈ [("a.xlsx", ([Col.mk "Mobile No" [Cell.str "1111111111"]] : Table)),
            ("b.xlsx", ([Col.mk "Mobile No" [Cell.str "2222222222"]] : Table))],
        colNames (clean_data serial0 parse0 (some f.1) f.2).1 = ["Mobile No", "Source_File"]) ∧
    (∀ c ∈ (processMultiple serial0 parse0
        [("a.xlsx", [Col.mk "Mobile No" [Cell.str "1111111111"]]),
         ("b.xlsx", [Col.mk "Mobile No" [Cell.str "2222222222"]])]).1,
      scrubNorm c.name = scrubNorm "Source_File" → ∀ v ∈ c.vals, v = Cell.str "") :=
  ⟨by decide, C1_merged_source_blank serial0 parse0 _ ["Mobile No", "Source_File"] (by decide)⟩

/-! ## Phone normalization (claim C2) -/

/-- C2: phone normalization strips all non-digit characters and drops a
leading "91" exactly when the digit string has length 12; the spec's three
examples hold; and in the pipeline the output "Mobile No" column is
`clean_mobile` mapped over exactly the surviving (filtered, deduplicated)
input values. -/
theorem C2_phone_normalization (serialOk : Int → Bool) (parse : String → Option DateYMD) (src : Option String)
    (t : Table) (c : Col) (hc : findCol (renameCols t) "Mobile No" = some c) :
    (clean_mobile (Cell.str "919876543210") = "9876543210" ∧
     clean_mobile (Cell.str "9876543210") = "9876543210" ∧
     clean_mobile (Cell.str "98-76-54-3210") = "9876543210") ∧
    (∀ x : Cell,
      clean_mobile x =
        if ((Cell.toStr x).toList.filter Char.isDigit).length = 12 ∧
            ((Cell.toStr x).toList.filter Char.isDigit).take 2 = ['9', '1']
        then String.mk (((Cell.toStr x).toList.filter Char.isDigit).drop 2)
        else String.mk ((Cell.toStr x).toList.filter Char.isDigit)) ∧
    (∃ kept, List.Sublist kept c.vals ∧
      findCol (clean_data serialOk parse src t).1 "Mobile No" =
        some (Col.mk "Mobile No" (kept.map (fun x => Cell.str (clean_mobile x))))) := by
  refine ⟨⟨by decide, by decide, by decide⟩, ?_, ?_⟩
  · intro x
    simp only [clean_mobile, digitsOf_pyStrip]
  · obtain ⟨kept, hsub, hfind⟩ := findCol_rowSteps_mobile hc
    refine ⟨kept, hsub, ?_⟩
    rw [clean_data_fst, findCol_scrubStep_ne (by decide), preScrub_eq,
      findCol_sourceStep_ne (by decide), findCol_branchStep_ne (by decide),
      findCol_entityStep_ne (by decide) (by decide) (by decide),
      findCol_nameStep_ne (by decide) (by decide) (by decide) (by decide) (by decide),
      findCol_addressStep_ne (by decide) (by decide), findCol_accountStep_ne (by decide),
      findCol_aadharStep_ne (by decide) (by decide),
      findCol_dateStep_ne (by decide) (by decide) (by decide)]
    exact hfind

/-- C2, witness for `C2_phone_normalization` at a concrete table. -/
theorem C2_witness :
    (findCol (renameCols [Col.mk "Mobile No" [Cell.str "919876543210", Cell.str " "]])
        "Mobile No" = some (Col.mk "Mobile No" [Cell.str "919876543210", Cell.str " "])) ∧
    ((clean_mobile (Cell.str "919876543210") = "9876543210" ∧
      clean_mobile (Cell.str "9876543210") = "9876543210" ∧
      clean_mobile (Cell.str "98-76-54-3210") = "9876543210") ∧
     (∀ x : Cell,
       clean_mobile x =
         if ((Cell.toStr x).toList.filter Char.isDigit).length = 12 ∧
             ((Cell.toStr x).toList.filter Char.isDigit).take 2 = ['9', '1']
         then String.mk (((Cell.toStr x).toList.filter Char.isDigit).drop 2)
         else String.mk ((Cell.toStr x).toList.filter Char.isDigit)) ∧
     (∃ kept, List.Sublist kept [Cell.str "919876543210", Cell.str " "] ∧
       findCol (clean_data serial0 parse0 none
           [Col.mk "Mobile No" [Cell.str "919876543210", Cell.str " "]]).1 "Mobile No" =
         some (Col.mk "Mobile No" (kept.map (fun x => Cell.str (clean_mobile x)))))) :=
  ⟨by decide, C2_phone_normalization serial0 parse0 none
    [Col.mk "Mobile No" [Cell.str "919876543210", Cell.str " "]]
    (Col.mk "Mobile No" [Cell.str "919876543210", Cell.str " "]) (by decide)⟩

/-! ## Date normalization (claim C3) -/

theorem findCol_dateStep_dob (serialOk : Int → Bool) (parse : String → Option DateYMD) (t : Table) :
    findCol (dateStep serialOk parse t) "DOB" =
      (findCol t "DOB").map (fun c => Col.mk c.name (c.vals.map (format_date serialOk parse))) := by
  unfold dateStep
  rw [findCol_updateCol_ne (by decide), findCol_updateCol_ne (by decide), findCol_updateCol_eq]

theorem findCol_dateStep_doi (serialOk : Int → Bool) (parse : String → Option DateYMD) (t : Table) :
    findCol (dateStep serialOk parse t) "DOI" =
      (findCol t "DOI").map (fun c => Col.mk c.name (c.vals.map (format_date serialOk parse))) := by
  unfold dateStep
  rw [findCol_updateCol_ne (by decide), findCol_updateCol_eq, findCol_updateCol_ne (by decide)]

theorem findCol_dateStep_aod (serialOk : Int → Bool) (parse : String → Option DateYMD) (t : Table) :
    findCol (dateStep serialOk parse t) "Account Opening Date" =
      (findCol t "Account Opening Date").map
        (fun c => Col.mk c.name (c.vals.map (format_date serialOk parse))) := by
  unfold dateStep
  rw [findCol_updateCol_eq, findCol_updateCol_ne (by decide), findCol_updateCol_ne (by decide)]

/-- C3, counterexample.  1899-12-30 + 45231 days is 2023-11-01, not
2023-11-15 (that would be serial 45245), so the claim's example
"45231 renders as '15-11-2023" contradicts its own rule; the code renders
'01-11-2023.  (45231 lies inside the pandas serial range, so the
instantiation `serial0` agrees with the library here.) -/
theorem C3_counterexample :
    format_date serial0 parse0 (Cell.num 45231) = Cell.str "'01-11-2023" ∧
    Cell.str "'01-11-2023" ≠ Cell.str "'15-11-2023" :=
  ⟨by decide, by decide⟩

/-- C3, amended: date normalization maps blanks to ""; a numeric `n`
whose serial conversion succeeds (is within the pandas range) to the
serial date 1899-12-30 + n days rendered as 'dd-mm-yyyy (so 45231
renders as '01-11-2023, and 45245 as '15-11-2023); a numeric `n` whose
conversion raises falls through to the day-first text parser applied to
its decimal text, typically passing it through unchanged; and any other
value through the day-first parser, falling back to the unchanged text.
In the pipeline each of the three date columns present is mapped
cell-wise over exactly the surviving rows. -/
theorem C3_date_normalization :
    (∀ (serialOk : Int → Bool) parse,
      format_date serialOk parse Cell.na = Cell.str "") ∧
    (∀ (serialOk : Int → Bool) parse s, pyStrip s = "" →
      format_date serialOk parse (Cell.str s) = Cell.str "") ∧
    (∀ (serialOk : Int → Bool) parse n, serialOk n = true →
      format_date serialOk parse (Cell.num n) =
        Cell.str ("'" ++ renderYMD (serialToYMD n))) ∧
    (∀ (serialOk : Int → Bool) parse n d, serialOk n = false →
      parse (intStr n) = some d →
      format_date serialOk parse (Cell.num n) = Cell.str ("'" ++ renderYMD d)) ∧
    (∀ (serialOk : Int → Bool) parse n, serialOk n = false →
      parse (intStr n) = none →
      format_date serialOk parse (Cell.num n) = Cell.str (intStr n)) ∧
    serialToYMD 0 = ((1899 : Int), 12, 30) ∧
    serialToYMD 45231 = ((2023 : Int), 11, 1) ∧
    serialToYMD 45245 = ((2023 : Int), 11, 15) ∧
    renderYMD (serialToYMD 45231) = "01-11-2023" ∧
    (∀ (serialOk : Int → Bool) parse s d, pyStrip s ≠ "" → parse s = some d →
      format_date serialOk parse (Cell.str s) = Cell.str ("'" ++ renderYMD d)) ∧
    (∀ (serialOk : Int → Bool) parse s, pyStrip s ≠ "" → parse s = none →
      format_date serialOk parse (Cell.str s) = Cell.str s) ∧
    (∀ (serialOk : Int → Bool) parse src t col c, col ∈ dateColNames →
      findCol (renameCols t) col = some c →
      ∃ kept, List.Sublist kept c.vals ∧
        findCol (clean_data serialOk parse src t).1 col =
          some (Col.mk col (kept.map (format_date serialOk parse)))) := by
  refine ⟨?_, ?_, fun serialOk parse n h => format_date_num parse n h, ?_, ?_,
    by decide, by decide, by decide, by decide, ?_, ?_, ?_⟩
  · intro serialOk parse
    unfold format_date
    rw [if_pos (Or.inl rfl)]
  · intro serialOk parse s h
    have h2 : pyStrip (Cell.toStr (Cell.str s)) = "" := h
    unfold format_date
    rw [if_pos (Or.inr h2)]
  · intro serialOk parse n d hs hp
    rw [format_date_num_fallback parse n hs, hp]
  · intro serialOk parse n hs hp
    rw [format_date_num_fallback parse n hs, hp]
  · intro serialOk parse s d hne hsome
    unfold format_date
    rw [if_neg]
    · show (match parse s with
        | some d2 => Cell.str ("'" ++ renderYMD d2)
        | none => Cell.str s) = Cell.str ("'" ++ renderYMD d)
      rw [hsome]
    · rintro (h | h)
      · exact Cell.noConfusion h
      · exact hne h
  · intro serialOk parse s hne hnone
    unfold format_date
    rw [if_neg]
    · show (match parse s with
        | some d2 => Cell.str ("'" ++ renderYMD d2)
        | none => Cell.str s) = Cell.str s
      rw [hnone]
    · rintro (h | h)
      · exact Cell.noConfusion h
      · exact hne h
  · intro serialOk parse src t col c hmem hc
    have hmem2 : col = "DOB" ∨ col = "DOI" ∨ col = "Account Opening Date" := by
      simpa [dateColNames] using hmem
    obtain ⟨kept, hsub, hfind⟩ := findCol_rowSteps (X := col)
      (by rcases hmem2 with rfl | rfl | rfl <;> decide) hc
    refine ⟨kept, hsub, ?_⟩
    rw [clean_data_fst, findCol_scrubStep_ne
        (by rcases hmem2 with rfl | rfl | rfl <;> decide), preScrub_eq,
      findCol_sourceStep_ne (by rcases hmem2 with rfl | rfl | rfl <;> decide),
      findCol_branchStep_ne (by rcases hmem2 with rfl | rfl | rfl <;> decide),
      findCol_entityStep_ne (by rcases hmem2 with rfl | rfl | rfl <;> decide)
        (by rcases hmem2 with rfl | rfl | rfl <;> decide)
        (by rcases hmem2 with rfl | rfl | rfl <;> decide),
      findCol_nameStep_ne (by rcases hmem2 with rfl | rfl | rfl <;> decide)
        (by rcases hmem2 with rfl | rfl | rfl <;> decide)
        (by rcases hmem2 with rfl | rfl | rfl <;> decide)
        (by rcases hmem2 with rfl | rfl | rfl <;> decide)
        (by rcases hmem2 with rfl | rfl | rfl <;> decide),
      findCol_addressStep_ne (by rcases hmem2 with rfl | rfl | rfl <;> decide)
        (by rcases hmem2 with rfl | rfl | rfl <;> decide),
      findCol_accountStep_ne (by rcases hmem2 with rfl | rfl | rfl <;> decide),
      findCol_aadharStep_ne (by rcases hmem2 with rfl | rfl | rfl <;> decide)
        (by rcases hmem2 with rfl | rfl | rfl <;> decide)]
    rcases hmem2 with rfl | rfl | rfl
    · rw [findCol_dateStep_dob, hfind]
      rfl
    · rw [findCol_dateStep_doi, hfind]
      rfl
    · rw [findCol_dateStep_aod, hfind]
      rfl

/-- C3, witness for `C3_date_normalization` at concrete inputs, covering
the blank, in-range serial, out-of-range serial (fall-through to
pass-through), parseable-text, unparseable-text and pipeline clauses. -/
theorem C3_witness :
    (pyStrip " " = "" ∧ format_date serial0 parse0 (Cell.str " ") = Cell.str "") ∧
    (serial0 45231 = true ∧
      format_date serial0 parse0 (Cell.num 45231) =
        Cell.str ("'" ++ renderYMD (serialToYMD 45231))) ∧
    ((fun _ => false : Int → Bool) 45231 = false ∧ parse0 (intStr 45231) = none ∧
      format_date (fun _ => false) parse0 (Cell.num 45231) = Cell.str (intStr 45231)) ∧
    (pyStrip "TBD" ≠ "" ∧ parse0 "TBD" = none ∧
      format_date serial0 parse0 (Cell.str "TBD") = Cell.str "TBD") ∧
    ("DOB" ∈ dateColNames ∧
      findCol (renameCols [Col.mk "DOB" [Cell.num 45231]]) "DOB" =
        some (Col.mk "DOB" [Cell.num 45231]) ∧
      ∃ kept, List.Sublist kept [Cell.num 45231] ∧
        findCol (clean_data serial0 parse0 none [Col.mk "DOB" [Cell.num 45231]]).1 "DOB" =
          some (Col.mk "DOB" (kept.map (format_date serial0 parse0)))) := by
  obtain ⟨h1, h2, h3, h4, h5, h6, h7, h8, h9, h10, h11, h12⟩ := C3_date_normalization
  exact ⟨⟨by decide, h2 serial0 parse0 " " (by decide)⟩,
    ⟨rfl, h3 serial0 parse0 45231 rfl⟩,
    ⟨rfl, rfl, h5 (fun _ => false) parse0 45231 rfl rfl⟩,
    ⟨by decide, rfl, h11 serial0 parse0 "TBD" (by decide) rfl⟩,
    ⟨by decide, by decide, h12 serial0 parse0 none [Col.mk "DOB" [Cell.num 45231]] "DOB"
      (Col.mk "DOB" [Cell.num 45231]) (by decide) (by decide)⟩⟩

/-! ## Determinism and idempotence (claim C7) -/

/-- C7, counterexample.  The pipeline is not idempotent: a second run
re-applies the Aadhaar forced-text prefix, so cleaning a cleaned table
differs from cleaning once. -/
theorem C7_counterexample :
    (clean_data serial0 parse0 none
        (clean_data serial0 parse0 none [Col.mk "Aadhar No" [Cell.str "123456789012"]]).1).1 ≠
      (clean_data serial0 parse0 none [Col.mk "Aadhar No" [Cell.str "123456789012"]]).1 := by
  decide

/-- C7, amended: the pipeline is a deterministic pure transform — equal
inputs give equal outputs — but it is not idempotent (see the
counterexample: the Aadhaar prefix rule adds one apostrophe per run). -/
theorem C7_deterministic (serialOk : Int → Bool) (parse : String → Option DateYMD) (src : Option String)
    (t1 t2 : Table) (h : t1 = t2) :
    clean_data serialOk parse src t1 = clean_data serialOk parse src t2 := by
  rw [h]

/-- C7, witness for `C7_deterministic`. -/
theorem C7_witness :
    ([Col.mk "Aadhar No" [Cell.str "123456789012"]] : Table) =
      [Col.mk "Aadhar No" [Cell.str "123456789012"]] ∧
    clean_data serial0 parse0 none [Col.mk "Aadhar No" [Cell.str "123456789012"]] =
      clean_data serial0 parse0 none [Col.mk "Aadhar No" [Cell.str "123456789012"]] :=
  ⟨rfl, C7_deterministic serial0 parse0 none _ _ rfl⟩

/-! ## ID normalization (claim C4) -/

theorem findCol_aadharStep_aadhar (t : Table) :
    findCol (aadharStep t) "Aadhar No" =
      (findCol t "Aadhar No").map (fun c => Col.mk c.name (idMap aadharClean c.vals)) := by
  unfold aadharStep
  rw [findCol_updateCol_ne (by decide), findCol_updateCol_eq]

theorem findCol_aadharStep_aadhaar (t : Table) :
    findCol (aadharStep t) "Aadhaar No" =
      (findCol t "Aadhaar No").map (fun c => Col.mk c.name (idMap aadharClean c.vals)) := by
  unfold aadharStep
  rw [findCol_updateCol_eq, findCol_updateCol_ne (by decide)]

theorem findCol_accountStep_eq (t : Table) :
    findCol (accountStep t) "Account No" =
      (findCol t "Account No").map (fun c => Col.mk c.name (idMap accountClean c.vals)) := by
  unfold accountStep
  rw [findCol_updateCol_eq]

/-- C4, counterexample.  The claim says only a trailing ".0" is stripped
and text with ".0" elsewhere is otherwise unchanged; but `str.replace`
removes every occurrence, so an Aadhaar cell "1.023" becomes "'123"
rather than "'1.023". -/
theorem C4_counterexample :
    (clean_data serial0 parse0 none [Col.mk "Aadhar No" [Cell.str "1.023"]]).1 =
      [Col.mk "Aadhar No" [Cell.str "'123"]] ∧
    Cell.str "'123" ≠ Cell.str "'1.023" :=
  ⟨by decide, by decide⟩

/-- C4, amended: ID normalization converts the cell to text, removes
*every* occurrence of ".0" (not only a trailing artifact; for
"Account No" it first strips leading apostrophes), prefixes the
forced-text marker when the text is non-blank and not "nan"
(case-insensitively), and otherwise yields the empty string; the spec's
own example "123456789012.0" still renders as "'123456789012". -/
theorem C4_id_normalization :
    (aadharClean "123456789012.0" = "'123456789012" ∧ aadharClean "nan" = "" ∧
     aadharClean "NaN" = "" ∧ aadharClean " " = "" ∧ aadharClean "1.023" = "'123" ∧
     accountClean "'123.045" = "'12345") ∧
    (∀ x : String, pyStrip x = "" ∨ pyLower x = "nan" →
      aadharClean x = "" ∧ accountClean x = "") ∧
    (∀ x : String, pyStrip x ≠ "" → pyLower x ≠ "nan" →
      aadharClean x = "'" ++ pyReplace x ".0" "" ∧
      accountClean x = "'" ++ pyReplace (lstripApos x) ".0" "") ∧
    (∀ serialOk parse src t col c, col = "Aadhar No" ∨ col = "Aadhaar No" →
      findCol (renameCols t) col = some c →
      ∃ kept, List.Sublist kept c.vals ∧
        findCol (clean_data serialOk parse src t).1 col =
          some (Col.mk col (kept.map (fun x => Cell.str (aadharClean (Cell.toStr x)))))) ∧
    (∀ serialOk parse src t c, findCol (renameCols t) "Account No" = some c →
      ∃ kept, List.Sublist kept c.vals ∧
        findCol (clean_data serialOk parse src t).1 "Account No" =
          some (Col.mk "Account No"
            (kept.map (fun x => Cell.str (accountClean (Cell.toStr x)))))) := by
  refine ⟨⟨by decide, by decide, by decide, by decide, by decide, by decide⟩, ?_, ?_, ?_, ?_⟩
  · intro x h
    have hno : ¬(pyStrip x ≠ "" ∧ pyLower x ≠ "nan") := by
      rintro ⟨hA, hB⟩
      rcases h with h | h
      · exact hA h
      · exact hB h
    constructor
    · unfold aadharClean
      rw [if_neg hno]
    · unfold accountClean
      rw [if_neg hno]
  · intro x h1 h2
    constructor
    · unfold aadharClean
      rw [if_pos ⟨h1, h2⟩]
    · unfold accountClean
      rw [if_pos ⟨h1, h2⟩]
  · intro serialOk parse src t col c hcol hc
    obtain ⟨kept, hsub, hfind⟩ := findCol_rowSteps (X := col)
      (by rcases hcol with rfl | rfl <;> decide) hc
    refine ⟨kept, hsub, ?_⟩
    rw [clean_data_fst, findCol_scrubStep_ne (by rcases hcol with rfl | rfl <;> decide),
      preScrub_eq,
      findCol_sourceStep_ne (by rcases hcol with rfl | rfl <;> decide),
      findCol_branchStep_ne (by rcases hcol with rfl | rfl <;> decide),
      findCol_entityStep_ne (by rcases hcol with rfl | rfl <;> decide)
        (by rcases hcol with rfl | rfl <;> decide)
        (by rcases hcol with rfl | rfl <;> decide),
      findCol_nameStep_ne (by rcases hcol with rfl | rfl <;> decide)
        (by rcases hcol with rfl | rfl <;> decide)
        (by rcases hcol with rfl | rfl <;> decide)
        (by rcases hcol with rfl | rfl <;> decide)
        (by rcases hcol with rfl | rfl <;> decide),
      findCol_addressStep_ne (by rcases hcol with rfl | rfl <;> decide)
        (by rcases hcol with rfl | rfl <;> decide),
      findCol_accountStep_ne (by rcases hcol with rfl | rfl <;> decide)]
    rcases hcol with rfl | rfl
    · rw [findCol_aadharStep_aadhar, findCol_dateStep_ne (by decide) (by decide) (by decide),
        hfind]
      rfl
    · rw [findCol_aadharStep_aadhaar, findCol_dateStep_ne (by decide) (by decide) (by decide),
        hfind]
      rfl
  · intro serialOk parse src t c hc
    obtain ⟨kept, hsub, hfind⟩ := findCol_rowSteps (X := "Account No") (by decide) hc
    refine ⟨kept, hsub, ?_⟩
    rw [clean_data_fst, findCol_scrubStep_ne (by decide), preScrub_eq,
      findCol_sourceStep_ne (by decide), findCol_branchStep_ne (by decide),
      findCol_entityStep_ne (by decide) (by decide) (by decide),
      findCol_nameStep_ne (by decide) (by decide) (by decide) (by decide) (by decide),
      findCol_addressStep_ne (by decide) (by decide), findCol_accountStep_eq,
      findCol_aadharStep_ne (by decide) (by decide),
      findCol_dateStep_ne (by decide) (by decide) (by decide), hfind]
    rfl

/-- C4, witness for `C4_id_normalization` at concrete inputs. -/
theorem C4_witness :
    ((pyStrip "nan" = "" ∨ pyLower "nan" = "nan") ∧
      aadharClean "nan" = "" ∧ accountClean "nan" = "") ∧
    (pyStrip "1.023" ≠ "" ∧ pyLower "1.023" ≠ "nan" ∧
      aadharClean "1.023" = "'" ++ pyReplace "1.023" ".0" "" ∧
      accountClean "1.023" = "'" ++ pyReplace (lstripApos "1.023") ".0" "") ∧
    (("Aadhar No" = "Aadhar No" ∨ ("Aadhar No" : String) = "Aadhaar No") ∧
      findCol (renameCols [Col.mk "Aadhar No" [Cell.str "1.023"]]) "Aadhar No" =
        some (Col.mk "Aadhar No" [Cell.str "1.023"]) ∧
      ∃ kept, List.Sublist kept [Cell.str "1.023"] ∧
        findCol (clean_data serial0 parse0 none [Col.mk "Aadhar No" [Cell.str "1.023"]]).1
            "Aadhar No" =
          some (Col.mk "Aadhar No"
            (kept.map (fun x => Cell.str (aadharClean (Cell.toStr x)))))) ∧
    (findCol (renameCols [Col.mk "Account No" [Cell.str "'12.03"]]) "Account No" =
        some (Col.mk "Account No" [Cell.str "'12.03"]) ∧
      ∃ kept, List.Sublist kept [Cell.str "'12.03"] ∧
        findCol (clean_data serial0 parse0 none [Col.mk "Account No" [Cell.str "'12.03"]]).1
            "Account No" =
          some (Col.mk "Account No"
            (kept.map (fun x => Cell.str (accountClean (Cell.toStr x)))))) := by
  obtain ⟨hex, hblank, hmain, hpipe, hacct⟩ := C4_id_normalization
  refine ⟨⟨Or.inr (by decide), hblank "nan" (Or.inr (by decide))⟩,
    ⟨by decide, by decide, hmain "1.023" (by decide) (by decide)⟩,
    ⟨Or.inl rfl, by decide, ?_⟩, ⟨by decide, ?_⟩⟩
  · exact hpipe serial0 parse0 none [Col.mk "Aadhar No" [Cell.str "1.023"]] "Aadhar No"
      (Col.mk "Aadhar No" [Cell.str "1.023"]) (Or.inl rfl) (by decide)
  · exact hacct serial0 parse0 none [Col.mk "Account No" [Cell.str "'12.03"]]
      (Col.mk "Account No" [Cell.str "'12.03"]) (by decide)

/-! ## Phone deduplication keeps the first occurrence (claim C5) -/

/-- C5: the deduplication mask keeps exactly the first occurrence of each
"Mobile No" value — for every value present, exactly one row survives;
position `i` survives iff the value does not occur earlier; in a
concatenation, a later block's copy of an earlier block's value is
dropped; and these masks are exactly what the per-file dedup rule and the
merged second pass apply. -/
theorem C5_dedup_keeps_first :
    (∀ (xs : List Cell) (v : Cell), v ∈ xs →
      (maskFilter (dedupMask [] xs) xs).count v = 1) ∧
    (∀ (xs : List Cell) (i : Nat) (h : i < xs.length),
      (dedupMask [] xs)[i]? = some (decide (xs.get ⟨i, h⟩ ∉ xs.take i))) ∧
    (∀ (v1 v2 : List Cell) (v : Cell) (j : Nat) (h : j < v2.length),
      v ∈ v1 → v2.get ⟨j, h⟩ = v →
      (dedupMask [] (v1 ++ v2))[v1.length + j]? = some false) ∧
    (∀ (t : Table) (c : Col), findCol t "Mobile No" = some c →
      findCol (mergedDedup t).1 "Mobile No" =
        some (Col.mk "Mobile No" (maskFilter (dedupMask [] c.vals) c.vals))) ∧
    (∀ (t : Table) (c : Col), findCol t "Mobile No" = some c →
      ∃ kept, List.Sublist kept c.vals ∧
        findCol (dedupStep (blankFilterStep t).1).1 "Mobile No" =
          some (Col.mk "Mobile No" (kept.map (fun x => Cell.str (clean_mobile x))))) := by
  refine ⟨?_, ?_, ?_, fun t c hc => mergedDedup_mobile hc,
    fun t c hc => findCol_rowSteps_mobile hc⟩
  · intro xs v hv
    rw [count_maskFilter_dedup]
    simp [hv]
  · intro xs i h
    rw [dedupMask_getElem [] xs i h]
    congr 1
    rw [decide_eq_decide]
    simp
  · intro v1 v2 v j h hv1 hget
    have hlen : v1.length + j < (v1 ++ v2).length := by
      rw [List.length_append]
      omega
    rw [dedupMask_getElem [] (v1 ++ v2) (v1.length + j) hlen]
    congr 1
    apply decide_eq_false
    rintro ⟨-, hnot⟩
    apply hnot
    have htake : (v1 ++ v2).take (v1.length + j) = v1 ++ v2.take j := List.take_append j
    rw [htake]
    have hel : (v1 ++ v2).get ⟨v1.length + j, hlen⟩ = v2.get ⟨j, h⟩ := by
      show (v1 ++ v2)[v1.length + j] = v2[j]
      rw [List.getElem_append_right (by omega)]
      congr 1
      omega
    rw [hel, hget]
    exact List.mem_append_left _ hv1

/-- C5, witness for `C5_dedup_keeps_first` at concrete inputs. -/
theorem C5_witness :
    (maskFilter (dedupMask [] [Cell.str "9000000001", Cell.str "42", Cell.str "9000000001"])
        [Cell.str "9000000001", Cell.str "42", Cell.str "9000000001"]).count
      (Cell.str "9000000001") = 1 ∧
    (dedupMask [] [Cell.str "9000000001", Cell.str "42", Cell.str "9000000001"])[2]? =
      some false ∧
    (dedupMask [] ([Cell.str "9000000001"] ++ [Cell.str "9000000001"]))[1]? = some false ∧
    findCol (mergedDedup [Col.mk "Mobile No" [Cell.str "7", Cell.str "7"]]).1 "Mobile No" =
      some (Col.mk "Mobile No" (maskFilter (dedupMask [] [Cell.str "7", Cell.str "7"])
        [Cell.str "7", Cell.str "7"])) ∧
    (∃ kept, List.Sublist kept [Cell.str "7", Cell.str "7"] ∧
      findCol (dedupStep
          (blankFilterStep [Col.mk "Mobile No" [Cell.str "7", Cell.str "7"]]).1).1
          "Mobile No" =
        some (Col.mk "Mobile No" (kept.map (fun x => Cell.str (clean_mobile x))))) := by
  obtain ⟨h1, h2, h3, h4, h5⟩ := C5_dedup_keeps_first
  refine ⟨h1 _ _ (by decide), ?_, ?_,
    h4 [Col.mk "Mobile No" [Cell.str "7", Cell.str "7"]]
      (Col.mk "Mobile No" [Cell.str "7", Cell.str "7"]) (by decide),
    h5 [Col.mk "Mobile No" [Cell.str "7", Cell.str "7"]]
      (Col.mk "Mobile No" [Cell.str "7", Cell.str "7"]) (by decide)⟩
  · rw [h2 _ 2 (by decide)]
    decide
  · have := h3 [Cell.str "9000000001"] [Cell.str "9000000001"] (Cell.str "9000000001") 0
      (by decide) (by decide) (by decide)
    simpa using this

/-! ## Column scrubbing (claim C6) -/

/-- C6, counterexample: the scrub list has eleven names, not twelve. -/
theorem C6_counterexample : clear_cols.length = 11 ∧ clear_cols.length ≠ 12 :=
  ⟨rfl, by decide⟩

/-- C6, amended: for each of the *eleven* scrub-list names, every column
matching it case- and space-insensitively is cleared to empty strings in
place (headers and positions preserved), with one log entry per matched
column. -/
theorem C6_column_scrubbing (t : Table) (col : String) (hcol : col ∈ clear_cols) :
    colNames (scrubStep t).1 = colNames t ∧
    (scrubStep t).1 = t.map (fun c =>
      if scrubHit c.name clear_cols then Col.mk c.name (clearVals c.vals) else c) ∧
    (∀ c ∈ t, scrubNorm c.name = scrubNorm col →
      ("Cleared all data from column: " ++ c.name) ∈ (scrubStep t).2) ∧
    (scrubStep t).2 = (clear_cols.map (fun col2 =>
      ((colNames t).filter (fun nm => decide (scrubNorm nm = scrubNorm col2))).map
        (fun nm => "Cleared all data from column: " ++ nm))).flatten := by
  have hlogs : (scrubStep t).2 = (clear_cols.map (fun col2 =>
      ((colNames t).filter (fun nm => decide (scrubNorm nm = scrubNorm col2))).map
        (fun nm => "Cleared all data from column: " ++ nm))).flatten := by
    unfold scrubStep
    rw [scrubList_logs]
    simp
  refine ⟨colNames_scrubStep t, ?_, ?_, hlogs⟩
  · unfold scrubStep
    exact scrubList_table _ _ _
  · intro c hc hn
    rw [hlogs]
    apply List.mem_flatten.mpr
    refine ⟨((colNames t).filter (fun nm => decide (scrubNorm nm = scrubNorm col))).map
        (fun nm => "Cleared all data from column: " ++ nm), ?_, ?_⟩
    · exact List.mem_map_of_mem _ hcol
    · exact List.mem_map_of_mem _
        (List.mem_filter.mpr ⟨List.mem_map_of_mem _ hc, by simpa using hn⟩)

/-- C6, witness for `C6_column_scrubbing` at a concrete table. -/
theorem C6_witness :
    ("MCC" ∈ clear_cols) ∧
    (colNames (scrubStep [Col.mk "MCC" [Cell.str "x"], Col.mk "Keep" [Cell.str "y"]]).1 =
        colNames [Col.mk "MCC" [Cell.str "x"], Col.mk "Keep" [Cell.str "y"]] ∧
      (scrubStep [Col.mk "MCC" [Cell.str "x"], Col.mk "Keep" [Cell.str "y"]]).1 =
        [Col.mk "MCC" [Cell.str "x"], Col.mk "Keep" [Cell.str "y"]].map (fun c =>
          if scrubHit c.name clear_cols then Col.mk c.name (clearVals c.vals) else c) ∧
      (∀ c ∈ [Col.mk "MCC" [Cell.str "x"], Col.mk "Keep" [Cell.str "y"]],
        scrubNorm c.name = scrubNorm "MCC" →
        ("Cleared all data from column: " ++ c.name) ∈
          (scrubStep [Col.mk "MCC" [Cell.str "x"], Col.mk "Keep" [Cell.str "y"]]).2) ∧
      (scrubStep [Col.mk "MCC" [Cell.str "x"], Col.mk "Keep" [Cell.str "y"]]).2 =
        (clear_cols.map (fun col2 =>
          ((colNames [Col.mk "MCC" [Cell.str "x"], Col.mk "Keep" [Cell.str "y"]]).filter
            (fun nm => decide (scrubNorm nm = scrubNorm col2))).map
            (fun nm => "Cleared all data from column: " ++ nm))).flatten) :=
  ⟨by decide, C6_column_scrubbing _ "MCC" (by decide)⟩

/-! ## Logging follows column presence, not observable effect (claim C8) -/

theorem branchStep_snd (t : Table) :
    (branchStep t).2 = if "Branch Name" ∈ colNames t then
      ["Replaced all values in 'Branch Name' with 'HO Branch'"] else [] := by
  unfold branchStep
  by_cases h : hasCol t "Branch Name"
  · rw [if_pos h, if_pos ((hasCol_iff_mem _ _).mp h)]
  · rw [if_neg h, if_neg (fun hm => h ((hasCol_iff_mem _ _).mpr hm))]

theorem colNames_throughEntity (serialOk : Int → Bool) (parse : String → Option DateYMD) (t : Table) :
    colNames (entityStep (nameStep (addressStep (accountStep (aadharStep (dateStep serialOk parse
      (dedupStep (blankFilterStep (renameCols t)).1).1)))))) = colNames (renameCols t) := by
  rw [colNames_entityStep, colNames_nameStep, colNames_addressStep, colNames_accountStep,
    colNames_aadharStep, colNames_dateStep, colNames_dedupStep, colNames_blankFilterStep]

theorem colNames_preScrub (serialOk : Int → Bool) (parse : String → Option DateYMD) (src : Option String)
    (t : Table) :
    colNames (preScrub serialOk parse src t) = postTagNames src (colNames (renameCols t)) := by
  rw [preScrub_eq, colNames_sourceStep, colNames_branchStep, colNames_throughEntity]

/-- C8, counterexample.  With a "Mobile No" column present but nothing to
remove, the pipeline leaves the table unchanged yet still records three
log entries (including zero counts) — log entries do not track observable
effect. -/
theorem C8_counterexample :
    (clean_data serial0 parse0 none [Col.mk "Mobile No" [Cell.str "9876543210"]]).1 =
      [Col.mk "Mobile No" [Cell.str "9876543210"]] ∧
    (clean_data serial0 parse0 none [Col.mk "Mobile No" [Cell.str "9876543210"]]).2 =
      ["Removed 0 rows with blank Mobile No",
       "Removed 0 duplicate row(s) by Mobile No (kept first occurrence)",
       "Cleaned 12-digit mobile numbers by removing '91' prefix where applicable"] ∧
    (clean_data serial0 parse0 none [Col.mk "Mobile No" [Cell.str "9876543210"]]).2 ≠ [] :=
  ⟨by decide, by decide, by decide⟩

/-- C8, amended: a log entry is recorded exactly when the rule's named
column is present (with possibly-zero counts), not when the rule has an
observable effect; only the two phone rules (plus the normalization
notice), the branch override, and the per-column scrub log at all, and a
missing column is skipped with no entry. -/
theorem C8_logging (serialOk : Int → Bool) (parse : String → Option DateYMD) (src : Option String) (t : Table) :
    ∃ b d : Nat, (clean_data serialOk parse src t).2 =
      (if "Mobile No" ∈ colNames (renameCols t) then
        ["Removed " ++ natStr b ++ " rows with blank Mobile No",
         "Removed " ++ natStr d ++ " duplicate row(s) by Mobile No (kept first occurrence)",
         "Cleaned 12-digit mobile numbers by removing '91' prefix where applicable"]
       else []) ++
      (if "Branch Name" ∈ colNames (renameCols t) then
        ["Replaced all values in 'Branch Name' with 'HO Branch'"] else []) ++
      (clear_cols.map (fun col =>
        ((postTagNames src (colNames (renameCols t))).filter
          (fun nm => decide (scrubNorm nm = scrubNorm col))).map
          (fun nm => "Cleared all data from column: " ++ nm))).flatten := by
  have hbr : (branchStep (entityStep (nameStep (addressStep (accountStep (aadharStep
      (dateStep serialOk parse (dedupStep (blankFilterStep (renameCols t)).1).1))))))).2 =
      (if "Branch Name" ∈ colNames (renameCols t) then
        ["Replaced all values in 'Branch Name' with 'HO Branch'"] else []) := by
    rw [branchStep_snd, colNames_throughEntity]
  have hscrub : (scrubStep (preScrub serialOk parse src t)).2 = (clear_cols.map (fun col =>
      ((postTagNames src (colNames (renameCols t))).filter
        (fun nm => decide (scrubNorm nm = scrubNorm col))).map
        (fun nm => "Cleared all data from column: " ++ nm))).flatten := by
    unfold scrubStep
    rw [scrubList_logs, colNames_preScrub]
    simp
  cases hm : findCol (renameCols t) "Mobile No" with
  | none =>
    have hmem : "Mobile No" ∉ colNames (renameCols t) := by
      intro hmem
      have h2 := (hasCol_iff_mem (renameCols t) "Mobile No").mpr hmem
      rw [hasCol_eq_isSome, hm] at h2
      exact Bool.noConfusion h2
    refine ⟨0, 0, ?_⟩
    rw [clean_data_snd, hscrub, hbr]
    have hb2 : (blankFilterStep (renameCols t)).2 = [] := by
      unfold blankFilterStep
      rw [hm]
    have hb1 : (blankFilterStep (renameCols t)).1 = renameCols t := by
      unfold blankFilterStep
      rw [hm]
    have hd2 : (dedupStep (blankFilterStep (renameCols t)).1).2 = [] := by
      rw [hb1]
      unfold dedupStep
      rw [hm]
    rw [hb2, hd2, if_neg hmem]
    simp
  | some c =>
    have hmem : "Mobile No" ∈ colNames (renameCols t) := by
      apply (hasCol_iff_mem _ _).mp
      rw [hasCol_eq_isSome, hm]
      rfl
    refine ⟨c.vals.length - (maskFilter (c.vals.map notBlankMobile) c.vals).length,
      (maskFilter (c.vals.map notBlankMobile) c.vals).length -
        (maskFilter (dedupMask [] (maskFilter (c.vals.map notBlankMobile) c.vals))
          (maskFilter (c.vals.map notBlankMobile) c.vals)).length, ?_⟩
    rw [clean_data_snd, hscrub, hbr]
    have hb2 : (blankFilterStep (renameCols t)).2 =
        ["Removed " ++ natStr (c.vals.length -
          (maskFilter (c.vals.map notBlankMobile) c.vals).length) ++
          " rows with blank Mobile No"] := by
      unfold blankFilterStep
      rw [hm]
    have hb1 : (blankFilterStep (renameCols t)).1 =
        filterRows (c.vals.map notBlankMobile) (renameCols t) := by
      unfold blankFilterStep
      rw [hm]
    have hm1 : findCol (blankFilterStep (renameCols t)).1 "Mobile No" =
        some (Col.mk "Mobile No" (maskFilter (c.vals.map notBlankMobile) c.vals)) := by
      rw [hb1, findCol_filterRows, hm]
      simp [findCol_name hm]
    have hd2 : (dedupStep (blankFilterStep (renameCols t)).1).2 =
        ["Removed " ++ natStr ((maskFilter (c.vals.map notBlankMobile) c.vals).length -
          (maskFilter (dedupMask [] (maskFilter (c.vals.map notBlankMobile) c.vals))
            (maskFilter (c.vals.map notBlankMobile) c.vals)).length) ++
          " duplicate row(s) by Mobile No (kept first occurrence)",
         "Cleaned 12-digit mobile numbers by removing '91' prefix where applicable"] := by
      unfold dedupStep
      rw [hm1]
    rw [hb2, hd2, if_pos hmem]
    simp

/-! ## Error policy of the intended pipeline (claim C9) -/

/-- C9: in the embedded (intended) pipeline no rule can fail on malformed
cells — `format_date` always returns a blank, a forced-text date, or the
unchanged text (pass-through), and `clean_data` is a total function on
tables.  (The deployed file never runs at all: the dedent at lines 43–69
makes `return df, logs` a module-level SyntaxError.) -/
theorem C9_error_policy (serialOk : Int → Bool) (parse : String → Option DateYMD) (x : Cell) :
    (format_date serialOk parse x = Cell.str "" ∨
     (∃ s, format_date serialOk parse x = Cell.str ("'" ++ s)) ∨
     format_date serialOk parse x = Cell.str (Cell.toStr x)) ∧
    (∀ src t, ∃ out logs, clean_data serialOk parse src t = (out, logs)) := by
  constructor
  · by_cases h : x = Cell.na ∨ pyStrip (Cell.toStr x) = ""
    · left
      unfold format_date
      rw [if_pos h]
    · cases x with
      | na => exact absurd (Or.inl rfl) h
      | num n =>
        cases hs : serialOk n with
        | true =>
          exact Or.inr (Or.inl ⟨renderYMD (serialToYMD n), format_date_num parse n hs⟩)
        | false =>
          cases hp : parse (intStr n) with
          | some d =>
            refine Or.inr (Or.inl ⟨renderYMD d, ?_⟩)
            rw [format_date_num_fallback parse n hs, hp]
          | none =>
            refine Or.inr (Or.inr ?_)
            rw [format_date_num_fallback parse n hs, hp]
            rfl
      | str s =>
        cases hp : parse s with
        | some d =>
          refine Or.inr (Or.inl ⟨renderYMD d, ?_⟩)
          unfold format_date
          rw [if_neg h]
          show (match parse s with
            | some d2 => Cell.str ("'" ++ renderYMD d2)
            | none => Cell.str s) = _
          rw [hp]
        | none =>
          refine Or.inr (Or.inr ?_)
          unfold format_date
          rw [if_neg h]
          show (match parse s with
            | some d2 => Cell.str ("'" ++ renderYMD d2)
            | none => Cell.str s) = _
          rw [hp]
          rfl
  · intro src t
    exact ⟨_, _, rfl⟩

/-! ## Blank phones can reappear after normalization (claim C10) -/

/-- C10: a "Mobile No" value that is non-blank but has no digits (here
"+-") survives the blank-row filter and is then normalized to the empty
string, so the cleaned output contains a row with an empty "Mobile No". -/
theorem C10_blank_after_normalization :
    findCol (clean_data serial0 parse0 none [Col.mk "Mobile No" [Cell.str "+-"]]).1 "Mobile No" =
      some (Col.mk "Mobile No" [Cell.str ""]) := by
  decide

end QR
